import Mathlib

/-!
Verification of the epydemics compartmental-forecasting core against its
natural-language specification.

The Python sources are shallowly embedded in Lean:
* floating-point values are modelled as exact rationals (`ℚ`); where the
  claims depend on IEEE special values (NaN / ±Inf) we use the four-point
  extension `FVal` with IEEE-style arithmetic (signed zeros and rounding
  are not modelled);
* pandas Series/DataFrame columns are modelled as `List` values, with the
  relevant pandas operations (`shift`, `fillna`, `diff`, `cumsum`, `clip`,
  `replace`, `ffill`, rolling means, reindexing) translated element- and
  position-faithfully;
* `datetime` indices are modelled as integer day numbers.

Sources embedded below:
* `epydemics/models/simulation.py` (`EpidemicSimulation.simulate_for_given_levels`,
  `create_results_dataframe`);
* `src/epydemics/data/features.py` (`feature_engineering`,
  `prepare_for_logit_function`, `_calculate_compartments_cumulative`,
  `_calculate_compartments_incidence`, `_calculate_rates`);
* `epydemics/data/preprocessing.py` (`preprocess_data`, `reindex_data`);
* the frequency-handler recovery-lag policy, which is modelled from the
  spec where the module is not part of the sources at hand.
-/

/-! ## Simulation engine: `EpidemicSimulation.simulate_for_given_levels`

One simulated scenario keeps a running state `(S, I, R, D, A, C)` together
with the rates `(alpha, beta, gamma)` that govern the next transition; the
rates stored in a produced row are the forecast values for that step, used
going into the following step, exactly as in the Python loop. -/

structure SimState where
  A : ℚ
  C : ℚ
  S : ℚ
  I : ℚ
  R : ℚ
  D : ℚ
  alpha : ℚ
  beta : ℚ
  gamma : ℚ
deriving DecidableEq, Repr, Inhabited

/-- One iteration of the loop body of `simulate_for_given_levels`
(simulation.py lines 86-121): the new compartments are computed from the
current state and current rates, then the rates advance to the forecast
triple `f` for this step. -/
def simStep (st : SimState) (f : ℚ × ℚ × ℚ) : SimState :=
  let infection := st.I * st.alpha * st.S / st.A
  let recovery := st.beta * st.I
  let death := st.gamma * st.I
  let newS := st.S - st.I * st.alpha * st.S / st.A
  let newI := st.I + infection - recovery - death
  let newR := st.R + recovery
  let newD := st.D + death
  let newC := newI + newR + newD
  let newA := newS + newI
  ⟨newA, newC, newS, newI, newR, newD, f.1, f.2.1, f.2.2⟩

/-- The rows of the trajectory table: one `SimState` per forecast step,
starting from the last historical record `st`. -/
def simRows (st : SimState) : List (ℚ × ℚ × ℚ) → List SimState
  | [] => []
  | f :: fs => simStep st f :: simRows (simStep st f) fs

theorem simRows_length (st : SimState) (fs : List (ℚ × ℚ × ℚ)) :
    (simRows st fs).length = fs.length := by
  induction fs generalizing st with
  | nil => rfl
  | cons f fs ih => simp [simRows, ih]

theorem simRows_getD_succ (st : SimState) (fs : List (ℚ × ℚ × ℚ)) (k : Nat)
    (h : k + 1 < (simRows st fs).length) :
    (simRows st fs).getD (k + 1) default
      = simStep ((simRows st fs).getD k default) (fs.getD (k + 1) default) := by
  induction fs generalizing st k with
  | nil => simp [simRows] at h
  | cons f fs ih =>
    cases k with
    | zero =>
      have hlen : 0 < (simRows (simStep st f) fs).length := by
        simp [simRows] at h
        simpa [simRows_length] using h
      cases fs with
      | nil => simp [simRows] at hlen
      | cons f2 fs2 => simp [simRows]
    | succ k' =>
      have h' : k' + 1 < (simRows (simStep st f) fs).length := by
        simp [simRows] at h
        simpa using h
      simpa [simRows] using ih (simStep st f) k' h'

theorem simRows_mem_C_eq (st : SimState) (fs : List (ℚ × ℚ × ℚ)) :
    ∀ row ∈ simRows st fs, row.C = row.I + row.R + row.D := by
  induction fs generalizing st with
  | nil => intro row hrow; simp [simRows] at hrow
  | cons f fs ih =>
    intro row hrow
    simp only [simRows, List.mem_cons] at hrow
    rcases hrow with h | h
    · subst h; rfl
    · exact ih (simStep st f) row h

/-! ### Claim C1: one step of the trajectory recursion -/

/-- The last historical record of the spec's Scenario A: S=900, I=100, R=0,
D=0, A=1000, C=100 with alpha=0.2, beta=0.1, gamma=0.01. -/
def scenarioAState : SimState :=
  ⟨1000, 100, 900, 100, 0, 0, 1/5, 1/10, 1/100⟩

/-- C1. One step of the per-scenario trajectory recursion computes
infection = I*alpha*S/A, recovery = beta*I, death = gamma*I and produces
S' = S - infection, I' = I + infection - recovery - death, R' = R + recovery,
D' = D + death, C' = I' + R' + D', A' = S' + I'; in particular from
S=900, I=100, R=0, D=0, A=1000, C=100 with alpha=0.2, beta=0.1, gamma=0.01
held for one step it yields infection=18, I'=107, S'=882, R'=10, D'=1,
C'=118, A'=989. -/
theorem C1_simulation_step_recursion :
    (∀ (st : SimState) (fs : List (ℚ × ℚ × ℚ)) (k : Nat),
      k + 1 < (simRows st fs).length →
      ((simRows st fs).getD (k + 1) default).S
          = ((simRows st fs).getD k default).S
            - ((simRows st fs).getD k default).I
              * ((simRows st fs).getD k default).alpha
              * ((simRows st fs).getD k default).S
              / ((simRows st fs).getD k default).A ∧
      ((simRows st fs).getD (k + 1) default).I
          = ((simRows st fs).getD k default).I
            + ((simRows st fs).getD k default).I
              * ((simRows st fs).getD k default).alpha
              * ((simRows st fs).getD k default).S
              / ((simRows st fs).getD k default).A
            - ((simRows st fs).getD k default).beta
              * ((simRows st fs).getD k default).I
            - ((simRows st fs).getD k default).gamma
              * ((simRows st fs).getD k default).I ∧
      ((simRows st fs).getD (k + 1) default).R
          = ((simRows st fs).getD k default).R
            + ((simRows st fs).getD k default).beta
              * ((simRows st fs).getD k default).I ∧
      ((simRows st fs).getD (k + 1) default).D
          = ((simRows st fs).getD k default).D
            + ((simRows st fs).getD k default).gamma
              * ((simRows st fs).getD k default).I ∧
      ((simRows st fs).getD (k + 1) default).C
          = ((simRows st fs).getD (k + 1) default).I
            + ((simRows st fs).getD (k + 1) default).R
            + ((simRows st fs).getD (k + 1) default).D ∧
      ((simRows st fs).getD (k + 1) default).A
          = ((simRows st fs).getD (k + 1) default).S
            + ((simRows st fs).getD (k + 1) default).I) ∧
    (scenarioAState.I * scenarioAState.alpha * scenarioAState.S / scenarioAState.A
        = 18 ∧
      simRows scenarioAState [(1/5, 1/10, 1/100)]
        = [⟨989, 118, 882, 107, 10, 1, 1/5, 1/10, 1/100⟩]) := by
  constructor
  · intro st fs k h
    rw [simRows_getD_succ st fs k h]
    exact ⟨rfl, rfl, rfl, rfl, rfl, rfl⟩
  · constructor
    · norm_num [scenarioAState]
    · norm_num [simRows, simStep, scenarioAState, SimState.mk.injEq]

/-- Witness for C1: the general recursion equations instantiated at the
Scenario A record with the rates held for two steps, at step k = 0. -/
theorem C1_simulation_step_recursion_witness :
    ((simRows scenarioAState [(1/5, 1/10, 1/100), (1/5, 1/10, 1/100)]).getD 1 default).D
      = ((simRows scenarioAState [(1/5, 1/10, 1/100), (1/5, 1/10, 1/100)]).getD 0 default).D
        + ((simRows scenarioAState [(1/5, 1/10, 1/100), (1/5, 1/10, 1/100)]).getD 0 default).gamma
          * ((simRows scenarioAState [(1/5, 1/10, 1/100), (1/5, 1/10, 1/100)]).getD 0 default).I :=
  (C1_simulation_step_recursion.1 scenarioAState
    [(1/5, 1/10, 1/100), (1/5, 1/10, 1/100)] 0
    (by simp [simRows_length])).2.2.2.1

/-! ### Claim C2: population conservation along a trajectory -/

theorem simStep_conserves (st : SimState) (f : ℚ × ℚ × ℚ) :
    (simStep st f).S + (simStep st f).I + (simStep st f).R + (simStep st f).D
      = st.S + st.I + st.R + st.D := by
  simp only [simStep]
  ring

/-- Modelled from the spec: the SIRDV (vaccination-active) variant of the
per-step recursion of section 4.4 — the vaccination-capable simulation
engine (`dynasir.models.simulation`) is not among the sources at hand, only
its tests. State and rates of one scenario row, with `V` and `delta`. -/
structure SimStateV where
  A : ℚ
  C : ℚ
  S : ℚ
  I : ℚ
  R : ℚ
  D : ℚ
  V : ℚ
  alpha : ℚ
  beta : ℚ
  gamma : ℚ
  delta : ℚ
deriving DecidableEq, Repr, Inhabited

/-- Modelled from the spec (section 4.4, vaccination branch):
infection = I*alpha*S/A, recovery = beta*I, death = gamma*I,
vaccination = delta*S, S' = S - infection - vaccination,
I' = I + infection - recovery - death, R' = R + recovery, D' = D + death,
V' = V + vaccination, C' = I' + R' + D', A' = S' + I', then the rates
advance to the forecast quadruple for this step. -/
def simStepV (st : SimStateV) (f : ℚ × ℚ × ℚ × ℚ) : SimStateV :=
  let infection := st.I * st.alpha * st.S / st.A
  let recovery := st.beta * st.I
  let death := st.gamma * st.I
  let vaccination := st.delta * st.S
  let newS := st.S - infection - vaccination
  let newI := st.I + infection - recovery - death
  let newR := st.R + recovery
  let newD := st.D + death
  let newV := st.V + vaccination
  let newC := newI + newR + newD
  let newA := newS + newI
  ⟨newA, newC, newS, newI, newR, newD, newV, f.1, f.2.1, f.2.2.1, f.2.2.2⟩

/-- Trajectory rows of the spec-modelled SIRDV recursion. -/
def simRowsV (st : SimStateV) : List (ℚ × ℚ × ℚ × ℚ) → List SimStateV
  | [] => []
  | f :: fs => simStepV st f :: simRowsV (simStepV st f) fs

theorem simStepV_conserves (st : SimStateV) (f : ℚ × ℚ × ℚ × ℚ) :
    (simStepV st f).S + (simStepV st f).I + (simStepV st f).R
        + (simStepV st f).D + (simStepV st f).V
      = st.S + st.I + st.R + st.D + st.V := by
  simp only [simStepV]
  ring

/-- C2. For every scenario and every step of a simulated trajectory, the sum
S + I + R + D (plus V when vaccination is active) equals the corresponding
sum of the last historical record exactly — the recursion step leaves
S+I+R+D(+V) unchanged, so the claimed relative tolerance of about 1e-6 is
met with room to spare. The SIRD half is proved from the source engine; the
vaccination half from the spec-modelled SIRDV step. -/
theorem C2_population_conservation :
    (∀ (st : SimState) (fs : List (ℚ × ℚ × ℚ)), ∀ row ∈ simRows st fs,
      row.S + row.I + row.R + row.D = st.S + st.I + st.R + st.D) ∧
    (∀ (st : SimStateV) (fs : List (ℚ × ℚ × ℚ × ℚ)), ∀ row ∈ simRowsV st fs,
      row.S + row.I + row.R + row.D + row.V
        = st.S + st.I + st.R + st.D + st.V) := by
  constructor
  · intro st fs
    induction fs generalizing st with
    | nil => intro row hrow; simp [simRows] at hrow
    | cons f fs ih =>
      intro row hrow
      simp only [simRows, List.mem_cons] at hrow
      rcases hrow with h | h
      · subst h; exact simStep_conserves st f
      · calc row.S + row.I + row.R + row.D
            = (simStep st f).S + (simStep st f).I + (simStep st f).R
                + (simStep st f).D := ih (simStep st f) row h
          _ = st.S + st.I + st.R + st.D := simStep_conserves st f
  · intro st fs
    induction fs generalizing st with
    | nil => intro row hrow; simp [simRowsV] at hrow
    | cons f fs ih =>
      intro row hrow
      simp only [simRowsV, List.mem_cons] at hrow
      rcases hrow with h | h
      · subst h; exact simStepV_conserves st f
      · calc row.S + row.I + row.R + row.D + row.V
            = (simStepV st f).S + (simStepV st f).I + (simStepV st f).R
                + (simStepV st f).D + (simStepV st f).V :=
              ih (simStepV st f) row h
          _ = st.S + st.I + st.R + st.D + st.V := simStepV_conserves st f

/-- The single row produced by simulating the Scenario A record one step. -/
def scenarioARow : SimState := ⟨989, 118, 882, 107, 10, 1, 1/5, 1/10, 1/100⟩

/-- Witness for C2: the Scenario A record simulated for one step; the row
(882, 107, 10, 1) sums to the historical 900 + 100 + 0 + 0 = 1000. -/
theorem C2_population_conservation_witness :
    scenarioARow.S + scenarioARow.I + scenarioARow.R + scenarioARow.D
      = scenarioAState.S + scenarioAState.I + scenarioAState.R
        + scenarioAState.D :=
  C2_population_conservation.1 scenarioAState [(1/5, 1/10, 1/100)]
    scenarioARow
    (by norm_num [simRows, simStep, scenarioAState, scenarioARow,
      SimState.mk.injEq])

/-! ### Claim C8: monotonicity of C and D under non-negative rates -/

/-- A last historical record whose infectious pool is wiped out in one step:
A=100, C=100, S=0, I=100, R=0, D=0 with alpha=0, beta=1, gamma=1 (all
non-negative). -/
def c8State : SimState := ⟨100, 100, 0, 100, 0, 0, 0, 1, 1⟩

/-- Two forecast steps with non-negative rates alpha=0, beta=0, gamma=1. -/
def c8Forecast : List (ℚ × ℚ × ℚ) := [(0, 0, 1), (0, 0, 1)]

/-- Counterexample to C8. All historical and forecasted rates above are
non-negative (and at most 1), yet the death compartment D of the simulated
trajectory strictly decreases from the first row (D=100) to the second
(D=0): once the infectious compartment goes negative (I = -100 after the
first step), the death increment gamma*I is negative. -/
theorem C8_counterexample :
    (c8Forecast.all fun f =>
        decide ((0:ℚ) ≤ f.1) && decide ((0:ℚ) ≤ f.2.1)
          && decide ((0:ℚ) ≤ f.2.2)) = true ∧
    ((simRows c8State c8Forecast).getD 1 default).D
      < ((simRows c8State c8Forecast).getD 0 default).D := by
  constructor
  · rfl
  · norm_num [simRows, simStep, c8State, c8Forecast]

theorem getD_mem_of_lt {α : Type} (l : List α) (k : Nat) (d : α)
    (h : k < l.length) : l.getD k d ∈ l := by
  rw [List.getD_eq_getElem?_getD, List.getElem?_eq_getElem h]
  exact List.getElem_mem _

theorem simRowsV_length (st : SimStateV) (fs : List (ℚ × ℚ × ℚ × ℚ)) :
    (simRowsV st fs).length = fs.length := by
  induction fs generalizing st with
  | nil => rfl
  | cons f fs ih => simp [simRowsV, ih]

theorem simRowsV_getD_succ (st : SimStateV) (fs : List (ℚ × ℚ × ℚ × ℚ))
    (k : Nat) (h : k + 1 < (simRowsV st fs).length) :
    (simRowsV st fs).getD (k + 1) default
      = simStepV ((simRowsV st fs).getD k default)
          (fs.getD (k + 1) default) := by
  induction fs generalizing st k with
  | nil => simp [simRowsV] at h
  | cons f fs ih =>
    cases k with
    | zero =>
      have hlen : 0 < (simRowsV (simStepV st f) fs).length := by
        simp [simRowsV] at h
        simpa [simRowsV_length] using h
      cases fs with
      | nil => simp [simRowsV] at hlen
      | cons f2 fs2 => simp [simRowsV]
    | succ k' =>
      have h' : k' + 1 < (simRowsV (simStepV st f) fs).length := by
        simp [simRowsV] at h
        simpa using h
      simpa [simRowsV] using ih (simStepV st f) k' h'

theorem simRowsV_mem_C_eq (st : SimStateV) (fs : List (ℚ × ℚ × ℚ × ℚ)) :
    ∀ row ∈ simRowsV st fs, row.C = row.I + row.R + row.D := by
  induction fs generalizing st with
  | nil => intro row hrow; simp [simRowsV] at hrow
  | cons f fs ih =>
    intro row hrow
    simp only [simRowsV, List.mem_cons] at hrow
    rcases hrow with h | h
    · subst h; rfl
    · exact ih (simStepV st f) row h

/-- C8 (amended). With non-negative rates carried in every trajectory row
and, additionally, a trajectory along which the infectious compartment I
and the infection flow I*alpha*S/A stay non-negative — which the engine
itself does not guarantee, as I may turn negative — the compartments C and
D are non-decreasing from each row to the next across the whole horizon;
and in the vaccination-active (SIRDV) recursion, under the analogous
condition that the vaccination flow delta*S also stays non-negative, V is
non-decreasing as well. The SIRD half is proved from the source engine,
the SIRDV half from the spec-modelled step used for C2. -/
theorem C8_monotonicity_amended :
    (∀ (st : SimState) (fs : List (ℚ × ℚ × ℚ)),
      (∀ row ∈ simRows st fs,
        0 ≤ row.alpha ∧ 0 ≤ row.beta ∧ 0 ≤ row.gamma) →
      (∀ row ∈ simRows st fs, 0 ≤ row.I) →
      (∀ row ∈ simRows st fs, 0 ≤ row.I * row.alpha * row.S / row.A) →
      ∀ k : Nat, k + 1 < (simRows st fs).length →
        ((simRows st fs).getD k default).D
            ≤ ((simRows st fs).getD (k + 1) default).D ∧
        ((simRows st fs).getD k default).C
            ≤ ((simRows st fs).getD (k + 1) default).C) ∧
    (∀ (st : SimStateV) (fs : List (ℚ × ℚ × ℚ × ℚ)),
      (∀ row ∈ simRowsV st fs,
        0 ≤ row.alpha ∧ 0 ≤ row.beta ∧ 0 ≤ row.gamma ∧ 0 ≤ row.delta) →
      (∀ row ∈ simRowsV st fs, 0 ≤ row.I) →
      (∀ row ∈ simRowsV st fs, 0 ≤ row.I * row.alpha * row.S / row.A) →
      (∀ row ∈ simRowsV st fs, 0 ≤ row.delta * row.S) →
      ∀ k : Nat, k + 1 < (simRowsV st fs).length →
        ((simRowsV st fs).getD k default).D
            ≤ ((simRowsV st fs).getD (k + 1) default).D ∧
        ((simRowsV st fs).getD k default).C
            ≤ ((simRowsV st fs).getD (k + 1) default).C ∧
        ((simRowsV st fs).getD k default).V
            ≤ ((simRowsV st fs).getD (k + 1) default).V) := by
  constructor
  · intro st fs hrates hI hflow k h
    have hk : k < (simRows st fs).length := Nat.lt_of_succ_lt h
    have hmem : (simRows st fs).getD k default ∈ simRows st fs :=
      getD_mem_of_lt _ k default hk
    set prev := (simRows st fs).getD k default with hprev
    have hsucc := simRows_getD_succ st fs k h
    rw [hsucc]
    constructor
    · have : (simStep prev (fs.getD (k + 1) default)).D
          = prev.D + prev.gamma * prev.I := rfl
      rw [this]
      have h1 : 0 ≤ prev.gamma * prev.I :=
        mul_nonneg (hrates prev hmem).2.2 (hI prev hmem)
      linarith
    · have hCeq : prev.C = prev.I + prev.R + prev.D :=
        simRows_mem_C_eq st fs prev hmem
      have : (simStep prev (fs.getD (k + 1) default)).C
          = prev.I + prev.I * prev.alpha * prev.S / prev.A
            - prev.beta * prev.I - prev.gamma * prev.I
            + (prev.R + prev.beta * prev.I)
            + (prev.D + prev.gamma * prev.I) := rfl
      rw [this, hCeq]
      have h2 : 0 ≤ prev.I * prev.alpha * prev.S / prev.A := hflow prev hmem
      linarith
  · intro st fs hrates hI hflow hvacc k h
    have hk : k < (simRowsV st fs).length := Nat.lt_of_succ_lt h
    have hmem : (simRowsV st fs).getD k default ∈ simRowsV st fs :=
      getD_mem_of_lt _ k default hk
    set prev := (simRowsV st fs).getD k default with hprev
    have hsucc := simRowsV_getD_succ st fs k h
    rw [hsucc]
    refine ⟨?_, ?_, ?_⟩
    · have : (simStepV prev (fs.getD (k + 1) default)).D
          = prev.D + prev.gamma * prev.I := rfl
      rw [this]
      have h1 : 0 ≤ prev.gamma * prev.I :=
        mul_nonneg (hrates prev hmem).2.2.1 (hI prev hmem)
      linarith
    · have hCeq : prev.C = prev.I + prev.R + prev.D :=
        simRowsV_mem_C_eq st fs prev hmem
      have : (simStepV prev (fs.getD (k + 1) default)).C
          = prev.I + prev.I * prev.alpha * prev.S / prev.A
            - prev.beta * prev.I - prev.gamma * prev.I
            + (prev.R + prev.beta * prev.I)
            + (prev.D + prev.gamma * prev.I) := rfl
      rw [this, hCeq]
      have h2 : 0 ≤ prev.I * prev.alpha * prev.S / prev.A := hflow prev hmem
      linarith
    · have : (simStepV prev (fs.getD (k + 1) default)).V
          = prev.V + prev.delta * prev.S := rfl
      rw [this]
      have h3 : 0 ≤ prev.delta * prev.S := hvacc prev hmem
      linarith

/-- The Scenario A record extended with a vaccinated compartment V=0 and
vaccination rate delta=0.01, for the SIRDV half of C8. -/
def scenarioAVState : SimStateV :=
  ⟨1000, 100, 900, 100, 0, 0, 0, 1/5, 1/10, 1/100, 1/100⟩

/-- Two forecast steps holding the Scenario A rates plus delta=0.01. -/
def scenarioAVForecast : List (ℚ × ℚ × ℚ × ℚ) :=
  [(1/5, 1/10, 1/100, 1/100), (1/5, 1/10, 1/100, 1/100)]

/-- Witness for C8 (amended): the Scenario A record with rates
(0.2, 0.1, 0.01) held for two steps keeps I and the infection flow
non-negative, giving non-decreasing D and C between the two simulated
rows; and its SIRDV extension with delta=0.01 additionally keeps the
vaccination flow non-negative, giving non-decreasing V. -/
theorem C8_monotonicity_amended_witness :
    (((simRows scenarioAState [(1/5, 1/10, 1/100), (1/5, 1/10, 1/100)]).getD 0 default).D
        ≤ ((simRows scenarioAState [(1/5, 1/10, 1/100), (1/5, 1/10, 1/100)]).getD 1 default).D ∧
      ((simRows scenarioAState [(1/5, 1/10, 1/100), (1/5, 1/10, 1/100)]).getD 0 default).C
        ≤ ((simRows scenarioAState [(1/5, 1/10, 1/100), (1/5, 1/10, 1/100)]).getD 1 default).C) ∧
    ((simRowsV scenarioAVState scenarioAVForecast).getD 0 default).V
      ≤ ((simRowsV scenarioAVState scenarioAVForecast).getD 1 default).V :=
  ⟨C8_monotonicity_amended.1 scenarioAState
    [(1/5, 1/10, 1/100), (1/5, 1/10, 1/100)]
    (by
      intro row hrow
      simp only [simRows, simStep, scenarioAState, List.mem_cons,
        List.not_mem_nil, or_false] at hrow
      rcases hrow with h | h <;> subst h <;> norm_num)
    (by
      intro row hrow
      simp only [simRows, simStep, scenarioAState, List.mem_cons,
        List.not_mem_nil, or_false] at hrow
      rcases hrow with h | h <;> subst h <;> norm_num)
    (by
      intro row hrow
      simp only [simRows, simStep, scenarioAState, List.mem_cons,
        List.not_mem_nil, or_false] at hrow
      rcases hrow with h | h <;> subst h <;> norm_num)
    0 (by simp [simRows_length]),
  (C8_monotonicity_amended.2 scenarioAVState scenarioAVForecast
    (by
      intro row hrow
      simp only [simRowsV, simStepV, scenarioAVState, scenarioAVForecast,
        List.mem_cons, List.not_mem_nil, or_false] at hrow
      rcases hrow with h | h <;> subst h <;> norm_num)
    (by
      intro row hrow
      simp only [simRowsV, simStepV, scenarioAVState, scenarioAVForecast,
        List.mem_cons, List.not_mem_nil, or_false] at hrow
      rcases hrow with h | h <;> subst h <;> norm_num)
    (by
      intro row hrow
      simp only [simRowsV, simStepV, scenarioAVState, scenarioAVForecast,
        List.mem_cons, List.not_mem_nil, or_false] at hrow
      rcases hrow with h | h <;> subst h <;> norm_num)
    (by
      intro row hrow
      simp only [simRowsV, simStepV, scenarioAVState, scenarioAVForecast,
        List.mem_cons, List.not_mem_nil, or_false] at hrow
      rcases hrow with h | h <;> subst h <;> norm_num)
    0 (by simp [simRowsV_length, scenarioAVForecast])).2.2⟩

/-! ## Result aggregation: `EpidemicSimulation.create_results_dataframe`

The Python code appends the aggregate columns sequentially:
`results_dataframe["mean"] = results_dataframe.mean(axis=1)` acts on the
scenario columns only, but `median` is then computed over the scenario
columns PLUS the already-appended mean column, `gmean` over those plus the
median, and `hmean` over those plus the gmean. -/

/-- Insertion into a sorted list, ascending. -/
def insertSortedQ (x : ℚ) : List ℚ → List ℚ
  | [] => [x]
  | y :: ys => if x ≤ y then x :: y :: ys else y :: insertSortedQ x ys

/-- Insertion sort, modelling the sort underlying `pandas` row medians. -/
def sortQ : List ℚ → List ℚ
  | [] => []
  | x :: xs => insertSortedQ x (sortQ xs)

/-- Row median as pandas computes it: middle element of the sorted values
for odd counts, average of the two middle elements for even counts. -/
def pandasMedian (xs : List ℚ) : ℚ :=
  let s := sortQ xs
  let n := s.length
  if n % 2 = 1 then s.getD (n / 2) 0
  else (s.getD (n / 2 - 1) 0 + s.getD (n / 2) 0) / 2

/-- Row mean as `DataFrame.mean(axis=1)` computes it: sum over count. -/
def rowMean (xs : List ℚ) : ℚ := xs.sum / xs.length

/-- The `mean` column of `create_results_dataframe` (simulation.py line
183): the row mean over the scenario columns, which at that point are the
only columns of the table. -/
def aggMean (scen : List ℚ) : ℚ := rowMean scen

/-- The `median` column of `create_results_dataframe` (simulation.py line
184): computed AFTER the mean column has been appended, hence the row
median over the scenario values together with their mean. -/
def aggMedian (scen : List ℚ) : ℚ := pandasMedian (scen ++ [aggMean scen])

/-- Counterexample to C3. For a row whose scenario values are [1, 2, 4]
the claim asserts median = 2, but the code computes the median over the
scenario values plus the previously appended mean column, giving
median(1, 2, 4, 7/3) = 13/6 ≠ 2; the aggregates do feed each other. -/
theorem C3_counterexample : aggMedian [1, 2, 4] ≠ 2 := by
  norm_num [aggMedian, aggMean, rowMean, pandasMedian, sortQ, insertSortedQ]

/-- C3 (amended). In the per-compartment result table only the first
aggregate column (mean) is computed over the scenario columns alone; each
later aggregate also takes the previously appended aggregate columns as
input (median over scenarios plus mean, gmean over those plus median,
hmean over those plus gmean). Consequently, for a row with scenario values
[1, 2, 4], mean = 7/3 (≈ 2.333, as claimed) but median =
median(1, 2, 4, 7/3) = 13/6 ≈ 2.167 rather than 2, and the row median of
the scenario values alone would have been 2. -/
theorem C3_aggregation_amended :
    aggMean [1, 2, 4] = 7/3 ∧
    aggMedian [1, 2, 4] = pandasMedian [1, 2, 4, 7/3] ∧
    aggMedian [1, 2, 4] = 13/6 ∧
    pandasMedian [1, 2, 4] = 2 := by
  refine ⟨?_, ?_, ?_, ?_⟩ <;>
    norm_num [aggMedian, aggMean, rowMean, pandasMedian, sortQ, insertSortedQ]

/-! ## Preprocessing: `preprocess_data` (preprocessing.py lines 14-31)

`data.rolling(window=window).mean()[window:]` — a trailing moving average
whose first `window - 1` entries are incomplete (NaN in pandas, `none`
here), followed by a positional slice dropping the first `window` rows. -/

/-- Trailing rolling mean of length `w`: position `i` holds the mean of
the `w` values ending at `i` once `i + 1 ≥ w`, and `none` (NaN) before
that, matching `Series.rolling(window=w).mean()`. -/
def rollingMean (w : Nat) (xs : List ℚ) : List (Option ℚ) :=
  (List.range xs.length).map fun i =>
    if w ≤ i + 1 then some (((xs.drop (i + 1 - w)).take w).sum / w)
    else none

/-- The smoothing step of `preprocess_data`: rolling mean then the slice
`[window:]`, which drops the first `window` positions. -/
def preprocessCol (w : Nat) (xs : List ℚ) : List (Option ℚ) :=
  (rollingMean w xs).drop w

/-- Counterexample to C7. With window = 2 and input column [1, 2, 3] the
claim predicts that only the first window − 1 = 1 incomplete row is
dropped, keeping the two complete-window rows [3/2, 5/2]; the code's
`[window:]` slice drops the first two rows, so the output is just [5/2]
and the first complete-window row 3/2 is gone. -/
theorem C7_counterexample :
    preprocessCol 2 [1, 2, 3] = [some (5/2)] ∧
    (preprocessCol 2 [1, 2, 3]).length ≠ 3 - (2 - 1) := by
  constructor
  · norm_num [preprocessCol, rollingMean, List.range_succ]
  · norm_num [preprocessCol, rollingMean, List.range_succ]

theorem rollingMean_length (w : Nat) (xs : List ℚ) :
    (rollingMean w xs).length = xs.length := by
  simp [rollingMean]

/-- C7 (amended). Preprocessing smooths with a trailing moving average of
length `window` but then drops the first `window` rows — one more than the
`window − 1` incomplete ones. The first row with a complete window (the
mean of positions 0..window−1, which the rolling mean does produce at
position window − 1) is therefore NOT retained: the output has
length − window rows and starts with the mean of positions 1..window. -/
theorem C7_preprocess_drop_amended (w : Nat) (xs : List ℚ)
    (hw : 1 ≤ w) (hlen : w < xs.length) :
    (preprocessCol w xs).length = xs.length - w ∧
    (rollingMean w xs).getD (w - 1) none
      = some (((xs.take w).sum) / w) ∧
    (preprocessCol w xs).getD 0 none
      = some ((((xs.drop 1).take w).sum) / w) := by
  refine ⟨?_, ?_, ?_⟩
  · simp [preprocessCol, rollingMean_length]
  · have hw1 : w - 1 < xs.length := by omega
    rw [List.getD_eq_getElem?_getD]
    rw [rollingMean, List.getElem?_map, List.getElem?_range hw1]
    have hcond : w ≤ w - 1 + 1 := by omega
    have hidx : w - 1 + 1 - w = 0 := by omega
    simp [hcond, hidx]
  · rw [List.getD_eq_getElem?_getD, preprocessCol, List.getElem?_drop]
    have hwlt : w + 0 < xs.length := by omega
    rw [rollingMean, List.getElem?_map, List.getElem?_range hwlt]
    have hcond : w ≤ w + 0 + 1 := by omega
    have hidx : w + 0 + 1 - w = 1 := by omega
    simp [hcond, hidx]

/-- Witness for C7 (amended): window 2 over [1, 2, 3, 4] keeps 2 rows; the
complete-window mean 3/2 sits at position 1 of the rolling mean but the
output starts with the mean of positions 1..2, namely 5/2. -/
theorem C7_preprocess_drop_amended_witness :
    (preprocessCol 2 [1, 2, 3, 4]).length = 4 - 2 ∧
    (rollingMean 2 [1, 2, 3, 4]).getD 1 none
      = some ((([1, 2, 3, 4] : List ℚ).take 2).sum / 2) ∧
    (preprocessCol 2 [1, 2, 3, 4]).getD 0 none
      = some (((([1, 2, 3, 4] : List ℚ).drop 1).take 2).sum / 2) :=
  C7_preprocess_drop_amended 2 [1, 2, 3, 4] (by norm_num) (by norm_num)

/-! ## Reindexing: `reindex_data` (preprocessing.py lines 34-84)

Dates are modelled as integer day numbers; a table is a list of
(day, row-content) pairs. `reindex_data` validates the requested range,
reindexes onto the daily range (missing days become `none`, as NaN rows),
and forward fills. -/

/-- The Python-level errors relevant here: `ValueError` as raised by
`reindex_data` and `feature_engineering`, and `ConfigurationError`, the
exception class named by the spec (it does not occur in the sources). The
quotes appearing inside the original messages are elided. -/
inductive PyError where
  | valueError (msg : String)
  | configurationError (msg : String)
deriving DecidableEq, Repr

/-- Forward fill over reindexed rows: a `none` row content takes the last
previously seen `some` content, matching `DataFrame.ffill`. -/
def ffillRows {α : Type} (last : Option α) :
    List (Int × Option α) → List (Int × Option α)
  | [] => []
  | (d, v) :: rest =>
    match v with
    | some x => (d, some x) :: ffillRows (some x) rest
    | none => (d, last) :: ffillRows last rest

/-- The inclusive daily range start..stop, as `pd.date_range(freq="D")`. -/
def dailyRange (start stop : Int) : List Int :=
  (List.range (stop + 1 - start).toNat).map fun (i : Nat) => start + (i : Int)

/-- First row content at day `d`, as `DataFrame.reindex` row lookup. -/
def lookupDay {α : Type} (data : List (Int × α)) (d : Int) : Option α :=
  (data.find? fun r => r.1 = d).map Prod.snd

/-- `reindex_data(data, start, stop)`: empty data is returned unchanged;
otherwise the requested (or defaulted) range is validated — start after
stop, start before the first date, or stop after the last date each raise
ValueError — then the rows are reindexed onto the daily range and forward
filled. -/
def reindexData {α : Type} (data : List (Int × α))
    (start? stop? : Option Int) : Except PyError (List (Int × Option α)) :=
  match data with
  | [] => .ok []
  | (d0, v0) :: rest =>
    let days := ((d0, v0) :: rest).map Prod.fst
    let startDate := start?.getD (days.foldl min d0)
    let stopDate := stop?.getD (days.foldl max d0)
    if startDate > stopDate then
      .error (.valueError "Start date is after stop date")
    else if startDate < d0 then
      .error (.valueError "Start date is before first date on confirmed cases")
    else if stopDate > (((d0, v0) :: rest).getLast (by simp)).1 then
      .error (.valueError "Stop date is after last date of updated cases")
    else
      .ok (ffillRows none
        ((dailyRange startDate stopDate).map fun d =>
          (d, lookupDay ((d0, v0) :: rest) d)))

theorem ffillRows_map_fst {α : Type} (last : Option α)
    (l : List (Int × Option α)) :
    (ffillRows last l).map Prod.fst = l.map Prod.fst := by
  induction l generalizing last with
  | nil => rfl
  | cons p rest ih =>
    rcases p with ⟨d, v⟩
    cases v with
    | some x => simp [ffillRows, ih]
    | none => simp [ffillRows, ih]

theorem ffillRows_keeps_some {α : Type} (last : Option α)
    (l : List (Int × Option α)) (d : Int) (v : α)
    (h : (d, some v) ∈ l) : (d, some v) ∈ ffillRows last l := by
  induction l generalizing last with
  | nil => simp at h
  | cons p rest ih =>
    rcases p with ⟨d1, v1⟩
    rcases List.mem_cons.1 h with h1 | h1
    · cases v1 with
      | some x =>
        have : d = d1 ∧ v = x := by
          constructor <;> [exact congrArg Prod.fst h1;
            exact Option.some.inj (congrArg Prod.snd h1)]
        rcases this with ⟨rfl, rfl⟩
        simp [ffillRows]
      | none =>
        exfalso
        have := congrArg Prod.snd h1
        simp at this
    · cases v1 with
      | some x => simp [ffillRows]; right; exact ih (some x) h1
      | none => simp [ffillRows]; right; exact ih last h1

theorem mem_dailyRange (start stop d : Int) :
    d ∈ dailyRange start stop ↔ start ≤ d ∧ d ≤ stop := by
  constructor
  · intro hd
    rcases List.mem_map.1 hd with ⟨i, hi, rfl⟩
    have hlt := List.mem_range.1 hi
    omega
  · rintro ⟨h1, h2⟩
    exact List.mem_map.2 ⟨(d - start).toNat,
      List.mem_range.2 (by omega), by omega⟩

theorem lookupDay_of_mem {α : Type} (data : List (Int × α)) (d : Int) (v : α)
    (hsorted : (data.map Prod.fst).Pairwise (· < ·))
    (h : (d, v) ∈ data) : lookupDay data d = some v := by
  induction data with
  | nil => simp at h
  | cons p rest ih =>
    rcases p with ⟨d1, v1⟩
    simp only [List.map_cons, List.pairwise_cons] at hsorted
    rcases List.mem_cons.1 h with h1 | h1
    · rcases Prod.mk.injEq .. ▸ h1 with ⟨rfl, rfl⟩
      simp [lookupDay, List.find?]
    · have hd : d1 < d := hsorted.1 d (List.mem_map_of_mem Prod.fst h1)
      have hne : (decide (d1 = d)) = false := by
        simp; omega
      simp only [lookupDay, List.find?, hne]
      exact ih hsorted.2 h1

/-- C10. For every non-empty, strictly time-sorted table, `reindex_data`
with explicit start/stop raises ValueError exactly when start > stop, or
start precedes the table's first date, or stop is after the table's last
date; otherwise it returns the table reindexed onto the daily range
start..stop (missing rows forward-filled), preserving every original
in-range row. -/
theorem C10_reindex_validation {α : Type} (d0 : Int) (v0 : α)
    (rest : List (Int × α)) (s t : Int)
    (hsorted : ((((d0, v0) :: rest).map Prod.fst)).Pairwise (· < ·)) :
    ((reindexData ((d0, v0) :: rest) (some s) (some t)).isOk = false ↔
      (s > t ∨ s < d0 ∨ t > (((d0, v0) :: rest).getLast (by simp)).1)) ∧
    (∀ rows, reindexData ((d0, v0) :: rest) (some s) (some t) = .ok rows →
      rows.map Prod.fst = dailyRange s t ∧
      ∀ d v, (d, v) ∈ (d0, v0) :: rest → s ≤ d → d ≤ t →
        (d, some v) ∈ rows) := by
  constructor
  · simp only [reindexData, Option.getD_some]
    split_ifs with h1 h2 h3
    · exact iff_of_true rfl (Or.inl h1)
    · exact iff_of_true rfl (Or.inr (Or.inl h2))
    · exact iff_of_true rfl (Or.inr (Or.inr h3))
    · refine iff_of_false (by simp [Except.isOk, Except.toBool]) ?_
      simp only [not_or]
      exact ⟨h1, h2, h3⟩
  · intro rows hok
    simp only [reindexData, Option.getD_some] at hok
    split_ifs at hok with h1 h2 h3
    have hrows : rows = ffillRows none
        ((dailyRange s t).map fun d =>
          (d, lookupDay ((d0, v0) :: rest) d)) := by
      exact (Except.ok.inj hok).symm
    subst hrows
    constructor
    · rw [ffillRows_map_fst, List.map_map]
      simp [Function.comp_def]
    · intro d v hmem hs ht
      apply ffillRows_keeps_some
      have hlook : lookupDay ((d0, v0) :: rest) d = some v :=
        lookupDay_of_mem _ d v hsorted hmem
      have hd : d ∈ dailyRange s t := (mem_dailyRange s t d).2 ⟨hs, ht⟩
      have : (d, lookupDay ((d0, v0) :: rest) d)
          ∈ (dailyRange s t).map fun d =>
            (d, lookupDay ((d0, v0) :: rest) d) :=
        List.mem_map_of_mem _ hd
      rwa [hlook] at this

/-- Witness for C10: the two-row table (day 0 ↦ 5, day 1 ↦ 7) reindexed
over 0..1 succeeds, keeps the daily index, and preserves both rows. -/
theorem C10_reindex_validation_witness :
    (([((0 : Int), some (5 : ℚ)), (1, some 7)]).map Prod.fst
        = dailyRange 0 1) ∧
    ((1 : Int), some (7 : ℚ)) ∈ [((0 : Int), some (5 : ℚ)), (1, some 7)] :=
  have happ := C10_reindex_validation 0 (5 : ℚ) [(1, 7)] 0 1 (by simp)
  have hok : reindexData [((0 : Int), (5 : ℚ)), (1, 7)] (some 0) (some 1)
      = .ok [((0 : Int), some (5 : ℚ)), (1, some 7)] := by rfl
  ⟨(happ.2 _ hok).1, (happ.2 _ hok).2 1 7 (by simp) (by norm_num) (by norm_num)⟩

/-! ## Historical derivation: `feature_engineering`
(src/epydemics/data/features.py)

Float cells are modelled by `FVal`: an exact rational, +Inf, -Inf, or NaN,
with IEEE-style propagation for the operations the pipeline uses (signed
zeros and overflow are not modelled). Columns are lists of cells. The
natural log appearing in the logit transform only matters here through its
finiteness, so it is parametrised by an arbitrary `logQ : ℚ → ℚ` giving
the value taken on positive rationals. -/

inductive FVal where
  | fin (q : ℚ)
  | pinf
  | ninf
  | nan
deriving DecidableEq, Repr, Inhabited

def fneg : FVal → FVal
  | .fin q => .fin (-q)
  | .pinf => .ninf
  | .ninf => .pinf
  | .nan => .nan

def fadd : FVal → FVal → FVal
  | .nan, _ => .nan
  | .fin a, .fin b => .fin (a + b)
  | .fin _, .pinf => .pinf
  | .fin _, .ninf => .ninf
  | .fin _, .nan => .nan
  | .pinf, .fin _ => .pinf
  | .pinf, .pinf => .pinf
  | .pinf, .ninf => .nan
  | .pinf, .nan => .nan
  | .ninf, .fin _ => .ninf
  | .ninf, .pinf => .nan
  | .ninf, .ninf => .ninf
  | .ninf, .nan => .nan

def fsub (a b : FVal) : FVal := fadd a (fneg b)

def fmul : FVal → FVal → FVal
  | .nan, _ => .nan
  | .fin a, .fin b => .fin (a * b)
  | .fin a, .pinf => if 0 < a then .pinf else if a < 0 then .ninf else .nan
  | .fin a, .ninf => if 0 < a then .ninf else if a < 0 then .pinf else .nan
  | .fin _, .nan => .nan
  | .pinf, .fin b => if 0 < b then .pinf else if b < 0 then .ninf else .nan
  | .pinf, .pinf => .pinf
  | .pinf, .ninf => .ninf
  | .pinf, .nan => .nan
  | .ninf, .fin b => if 0 < b then .ninf else if b < 0 then .pinf else .nan
  | .ninf, .pinf => .ninf
  | .ninf, .ninf => .pinf
  | .ninf, .nan => .nan

def fdiv : FVal → FVal → FVal
  | .nan, _ => .nan
  | .fin a, .fin b =>
    if b = 0 then
      if a = 0 then .nan else if 0 < a then .pinf else .ninf
    else .fin (a / b)
  | .fin _, .pinf => .fin 0
  | .fin _, .ninf => .fin 0
  | .fin _, .nan => .nan
  | .pinf, .fin b => if 0 ≤ b then .pinf else .ninf
  | .pinf, .pinf => .nan
  | .pinf, .ninf => .nan
  | .pinf, .nan => .nan
  | .ninf, .fin b => if 0 ≤ b then .ninf else .pinf
  | .ninf, .pinf => .nan
  | .ninf, .ninf => .nan
  | .ninf, .nan => .nan

/-- Elementwise column arithmetic (pandas aligns on a shared index; all
columns of one frame have equal length). -/
def colAdd (xs ys : List FVal) : List FVal := List.zipWith fadd xs ys

def colSub (xs ys : List FVal) : List FVal := List.zipWith fsub xs ys

def colMul (xs ys : List FVal) : List FVal := List.zipWith fmul xs ys

def colDiv (xs ys : List FVal) : List FVal := List.zipWith fdiv xs ys

/-- `fillna(0)` on one cell. -/
def fillnaCell (x : FVal) : FVal := if x = .nan then .fin 0 else x

/-- `Series.fillna(0)`. -/
def colFillna0 (xs : List FVal) : List FVal := xs.map fillnaCell

/-- `Series.shift(L).fillna(0)`: the first `L` positions become NaN and
are then zero-filled together with any NaN already present. -/
def shiftFillna0 (L : Nat) (xs : List FVal) : List FVal :=
  ((List.replicate L FVal.nan ++ xs).take xs.length).map fillnaCell

/-- `-Series.diff(periods=-1)`: position `t` holds `x(t+1) - x(t)`, and
the last position is NaN. -/
def diffNeg (xs : List FVal) : List FVal :=
  match xs with
  | [] => []
  | _ :: _ => List.zipWith fsub (xs.drop 1) xs ++ [FVal.nan]

def cumsumAux (acc : FVal) : List FVal → List FVal
  | [] => []
  | x :: rest =>
    if x = FVal.nan then FVal.nan :: cumsumAux acc rest
    else fadd acc x :: cumsumAux (fadd acc x) rest

/-- `Series.cumsum()` with pandas' default NaN skipping: NaN positions
stay NaN and do not contribute to the running sum. -/
def colCumsum (xs : List FVal) : List FVal := cumsumAux (.fin 0) xs

/-- `Series.replace([inf, -inf], nan)`. -/
def replaceInfNan (xs : List FVal) : List FVal :=
  xs.map fun x =>
    match x with
    | .pinf => .nan
    | .ninf => .nan
    | y => y

/-- The epsilon of `prepare_for_logit_function`. -/
def logitEps : ℚ := 1 / 10 ^ 10

/-- `Series.clip(lower=lo, upper=hi)` on one cell (NaN passes through). -/
def clipCell (lo hi : ℚ) : FVal → FVal
  | .nan => .nan
  | .pinf => .fin hi
  | .ninf => .fin lo
  | .fin q => .fin (max lo (min hi q))

/-- The rate clipping of `prepare_for_logit_function`:
`clip(lower=eps, upper=1-eps)`. -/
def colClipEps (xs : List FVal) : List FVal :=
  xs.map (clipCell logitEps (1 - logitEps))

/-- `Series.clip(lower=0)` on one cell. -/
def clip0Cell : FVal → FVal
  | .nan => .nan
  | .pinf => .pinf
  | .ninf => .fin 0
  | .fin q => .fin (max 0 q)

def colClip0 (xs : List FVal) : List FVal := xs.map clip0Cell

/-- `np.log` on one cell, with the value on positive rationals given by
the parameter `logQ`. -/
def fvalLog (logQ : ℚ → ℚ) : FVal → FVal
  | .nan => .nan
  | .pinf => .pinf
  | .ninf => .nan
  | .fin q => if 0 < q then .fin (logQ q) else if q = 0 then .ninf else .nan

/-- `logit_function`: `np.log(x / (1 - x))` on one cell. -/
def logitCell (logQ : ℚ → ℚ) (x : FVal) : FVal :=
  fvalLog logQ (fdiv x (fsub (.fin 1) x))

def colLogit (logQ : ℚ → ℚ) (xs : List FVal) : List FVal :=
  xs.map (logitCell logQ)

def ffillAux (last : FVal) : List FVal → List FVal
  | [] => []
  | x :: rest =>
    if x = FVal.nan then last :: ffillAux last rest
    else x :: ffillAux x rest

/-- `Series.ffill()`: NaN takes the last preceding non-NaN value; leading
NaN (no previous valid value) stays NaN. -/
def colFfill (xs : List FVal) : List FVal := ffillAux .nan xs

/-- The final cleanup of `feature_engineering`:
`engineered_data.ffill().fillna(0)`, per column. -/
def finalFill (xs : List FVal) : List FVal := colFillna0 (colFfill xs)

/-- The observation table handed to `feature_engineering`: cumulative mode
reads columns C, D, N; incidence mode reads I, D, N; V is optional. The
column not used by the selected mode is simply ignored, as in the
DataFrame. -/
structure RawData where
  C : List FVal
  I : List FVal
  D : List FVal
  N : List FVal
  V : Option (List FVal)

/-- The frame after the mode-specific compartment calculation
(`_calculate_compartments_cumulative` / `_calculate_compartments_incidence`). -/
structure CompFrame where
  C : List FVal
  I : List FVal
  R : List FVal
  S : List FVal
  A : List FVal
  D : List FVal
  N : List FVal
  dC : List FVal
  dA : List FVal
  dS : List FVal
  dI : List FVal
  dR : List FVal
  dD : List FVal
  V : Option (List FVal)
  dV : Option (List FVal)

/-- The full output frame of `feature_engineering`. -/
structure FeFrame where
  C : List FVal
  I : List FVal
  R : List FVal
  S : List FVal
  A : List FVal
  D : List FVal
  N : List FVal
  dC : List FVal
  dA : List FVal
  dS : List FVal
  dI : List FVal
  dR : List FVal
  dD : List FVal
  alpha : List FVal
  beta : List FVal
  gamma : List FVal
  R0 : List FVal
  logit_alpha : List FVal
  logit_beta : List FVal
  logit_gamma : List FVal
  V : Option (List FVal)
  dV : Option (List FVal)
  delta : Option (List FVal)
  logit_delta : Option (List FVal)

/-- `_calculate_compartments_cumulative` (features.py lines 182-216):
R = C.shift(lag).fillna(0) - D (unclipped); I = C - R - D;
S = N - C (- V); A = S + I; dX = -X.diff(-1); dV additionally clipped
at 0. `raw.V` is assumed already zero-filled by the caller. -/
def calcCompartmentsCumulative (lag : Nat) (raw : RawData) : CompFrame :=
  let C := raw.C
  let D := raw.D
  let N := raw.N
  let V := raw.V
  let R := colSub (shiftFillna0 lag C) D
  let I := colSub (colSub C R) D
  let S := match V with
    | some v => colSub (colSub N C) v
    | none => colSub N C
  let A := colAdd S I
  { C := C, I := I, R := R, S := S, A := A, D := D, N := N
    dC := diffNeg C, dA := diffNeg A, dS := diffNeg S, dI := diffNeg I
    dR := diffNeg R, dD := diffNeg D
    V := V, dV := V.map fun v => colClip0 (diffNeg v) }

/-- `_calculate_compartments_incidence` (features.py lines 219-260):
C = I.cumsum(); R = (I.shift(lag).fillna(0).cumsum() - D).clip(lower=0);
S = N - C (- V); A = S + I; dC = I directly; other dX = -X.diff(-1); dV
additionally clipped at 0. -/
def calcCompartmentsIncidence (lag : Nat) (raw : RawData) : CompFrame :=
  let I := raw.I
  let D := raw.D
  let N := raw.N
  let V := raw.V
  let C := colCumsum I
  let R := colClip0 (colSub (colCumsum (shiftFillna0 lag I)) D)
  let S := match V with
    | some v => colSub (colSub N C) v
    | none => colSub N C
  let A := colAdd S I
  { C := C, I := I, R := R, S := S, A := A, D := D, N := N
    dC := I, dA := diffNeg A, dS := diffNeg S, dI := diffNeg I
    dR := diffNeg R, dD := diffNeg D
    V := V, dV := V.map fun v => colClip0 (diffNeg v) }

/-- The shared tail of `feature_engineering` (features.py lines 157-173):
`_calculate_rates` (alpha = A*dC/(I*S), beta = dR/I, gamma = dD/I,
delta = dV/S), then R0 = alpha/(beta+gamma) from the raw rates, then
`prepare_for_logit_function` (replace ±Inf by NaN and clip each rate in
RATIOS = [alpha, beta, gamma, delta] — R0 is not a member), then
`add_logit_ratios`, then `ffill().fillna(0)` over every column. -/
def finishFeatures (logQ : ℚ → ℚ) (comp : CompFrame) : FeFrame :=
  let alpha := colDiv (colMul comp.A comp.dC) (colMul comp.I comp.S)
  let beta := colDiv comp.dR comp.I
  let gamma := colDiv comp.dD comp.I
  let delta := comp.dV.map fun dv => colDiv dv comp.S
  let R0 := colDiv alpha (colAdd beta gamma)
  let alphaC := colClipEps (replaceInfNan alpha)
  let betaC := colClipEps (replaceInfNan beta)
  let gammaC := colClipEps (replaceInfNan gamma)
  let deltaC := delta.map fun d => colClipEps (replaceInfNan d)
  { C := finalFill comp.C, I := finalFill comp.I, R := finalFill comp.R
    S := finalFill comp.S, A := finalFill comp.A, D := finalFill comp.D
    N := finalFill comp.N
    dC := finalFill comp.dC, dA := finalFill comp.dA, dS := finalFill comp.dS
    dI := finalFill comp.dI, dR := finalFill comp.dR, dD := finalFill comp.dD
    alpha := finalFill alphaC, beta := finalFill betaC
    gamma := finalFill gammaC, R0 := finalFill R0
    logit_alpha := finalFill (colLogit logQ alphaC)
    logit_beta := finalFill (colLogit logQ betaC)
    logit_gamma := finalFill (colLogit logQ gammaC)
    V := comp.V.map finalFill, dV := comp.dV.map finalFill
    delta := deltaC.map finalFill
    logit_delta := (deltaC.map (colLogit logQ)).map finalFill }

/-- `feature_engineering(data, mode)` (features.py lines 101-179): the V
column, when present, is zero-filled; then the mode dispatch — a mode
other than cumulative or incidence raises
`ValueError("Invalid mode: {mode}. Must be cumulative or incidence")`
(quotes of the original message elided) — and the shared rate/logit/fill
tail. -/
def featureEngineering (logQ : ℚ → ℚ) (lag : Nat) (mode : String)
    (raw : RawData) : Except PyError FeFrame :=
  let data : RawData := { raw with V := raw.V.map colFillna0 }
  if mode = "cumulative" then
    .ok (finishFeatures logQ (calcCompartmentsCumulative lag data))
  else if mode = "incidence" then
    .ok (finishFeatures logQ (calcCompartmentsIncidence lag data))
  else
    .error (.valueError
      ("Invalid mode: " ++ mode ++ ". Must be cumulative or incidence"))

/-! ### Claim C9: invalid mode raises ValueError (not ConfigurationError) -/

/-- Whether a pipeline result is a raised `ConfigurationError`. -/
def isConfigurationError : Except PyError FeFrame → Bool
  | .error (.configurationError _) => true
  | _ => false

/-- Whether a pipeline result is a raised `ValueError`. -/
def isValueError : Except PyError FeFrame → Bool
  | .error (.valueError _) => true
  | _ => false

/-- A one-column observation table used as concrete input. -/
def c9Raw : RawData := ⟨[.fin 1], [.fin 1], [.fin 0], [.fin 10], none⟩

/-- Counterexample to C9. On the unsupported mode "linear" the historical
derivation raises ValueError — there is no ConfigurationError anywhere in
the sources — so the claim naming ConfigurationError does not hold. -/
theorem C9_counterexample :
    featureEngineering (fun q => q) 14 "linear" c9Raw
      = .error (.valueError
          "Invalid mode: linear. Must be cumulative or incidence") ∧
    isConfigurationError (featureEngineering (fun q => q) 14 "linear" c9Raw)
      = false := by
  constructor
  · rfl
  · rfl

/-- C9 (amended). The historical derivation raises ValueError — not
ConfigurationError — synchronously and without internal recovery whenever
the supplied mode is neither cumulative nor incidence, with a message
naming the offending mode. -/
theorem C9_invalid_mode_amended (logQ : ℚ → ℚ) (lag : Nat) (mode : String)
    (raw : RawData) (h1 : mode ≠ "cumulative") (h2 : mode ≠ "incidence") :
    featureEngineering logQ lag mode raw
      = .error (.valueError
          ("Invalid mode: " ++ mode ++ ". Must be cumulative or incidence"))
      ∧ isValueError (featureEngineering logQ lag mode raw) = true
      ∧ isConfigurationError (featureEngineering logQ lag mode raw) = false := by
  have hresult : featureEngineering logQ lag mode raw
      = .error (.valueError
          ("Invalid mode: " ++ mode ++ ". Must be cumulative or incidence")) := by
    simp [featureEngineering, h1, h2]
  exact ⟨hresult, by rw [hresult]; rfl, by rw [hresult]; rfl⟩

/-- Witness for C9 (amended): instantiated at the unsupported mode
"prevalence". -/
theorem C9_invalid_mode_amended_witness :
    featureEngineering (fun q => q) 14 "prevalence" c9Raw
      = .error (.valueError
          "Invalid mode: prevalence. Must be cumulative or incidence")
      ∧ isValueError (featureEngineering (fun q => q) 14 "prevalence" c9Raw)
        = true
      ∧ isConfigurationError
          (featureEngineering (fun q => q) 14 "prevalence" c9Raw) = false :=
  C9_invalid_mode_amended (fun q => q) 14 "prevalence" c9Raw
    (by decide) (by decide)

/-! ### Claim C5: cumulative/incidence mode equivalence -/

/-- A column all of whose cells are finite numbers. -/
def allFin (xs : List FVal) : Prop := ∀ x ∈ xs, ∃ q, x = FVal.fin q

/-- A column containing no NaN cell. -/
def noNaN (xs : List FVal) : Prop := ∀ x ∈ xs, x ≠ FVal.nan

/-- A column containing no infinite cell. -/
def noInf (xs : List FVal) : Prop :=
  ∀ x ∈ xs, x ≠ FVal.pinf ∧ x ≠ FVal.ninf

theorem map_fillnaCell_of_allFin (xs : List FVal) (h : allFin xs) :
    xs.map fillnaCell = xs := by
  induction xs with
  | nil => rfl
  | cons x rest ih =>
    rcases h x (by simp) with ⟨q, rfl⟩
    have hrest : allFin rest := fun y hy => h y (by simp [hy])
    simp [fillnaCell, ih hrest]

theorem cumsumAux_take (acc : FVal) (xs : List FVal) (n : Nat) :
    cumsumAux acc (xs.take n) = (cumsumAux acc xs).take n := by
  induction xs generalizing acc n with
  | nil => simp [cumsumAux]
  | cons x rest ih =>
    cases n with
    | zero => simp [cumsumAux]
    | succ m =>
      simp only [List.take_succ_cons, cumsumAux]
      by_cases hx : x = FVal.nan
      · simp [hx, ih acc m]
      · simp [hx, ih (fadd acc x) m]

theorem cumsumAux_zero_prefix (L : Nat) (ys : List FVal) :
    cumsumAux (.fin 0) (List.replicate L (.fin 0) ++ ys)
      = List.replicate L (.fin 0) ++ cumsumAux (.fin 0) ys := by
  induction L with
  | zero => simp
  | succ m ih =>
    have hz : fadd (.fin 0) (.fin 0) = FVal.fin 0 := by
      simp [fadd]
    simp only [List.replicate_succ, List.cons_append, cumsumAux]
    simp [hz, ih]

theorem cumsumAux_length (acc : FVal) (xs : List FVal) :
    (cumsumAux acc xs).length = xs.length := by
  induction xs generalizing acc with
  | nil => rfl
  | cons x rest ih =>
    by_cases hx : x = FVal.nan
    · simp [cumsumAux, hx, ih]
    · simp [cumsumAux, hx, ih]

theorem allFin_cumsumAux (acc : FVal) (xs : List FVal)
    (hacc : ∃ q, acc = FVal.fin q) (h : allFin xs) :
    allFin (cumsumAux acc xs) := by
  induction xs generalizing acc with
  | nil => intro x hx; simp [cumsumAux] at hx
  | cons x rest ih =>
    rcases h x (by simp) with ⟨q, rfl⟩
    rcases hacc with ⟨a, rfl⟩
    have hrest : allFin rest := fun y hy => h y (by simp [hy])
    intro y hy
    simp only [cumsumAux, reduceCtorEq, if_false] at hy
    rcases List.mem_cons.1 hy with h1 | h1
    · exact ⟨a + q, by simp [h1, fadd]⟩
    · exact ih (fadd (.fin a) (.fin q)) ⟨a + q, by simp [fadd]⟩ hrest y h1

/-- In incidence mode, shifting the incident series and accumulating is
the same as accumulating and then shifting, for a finite series: the
`I.shift(L).fillna(0).cumsum()` of the source equals
`C.shift(L).fillna(0)` for C = I.cumsum(). -/
theorem cumsum_shiftFillna0_comm (L : Nat) (I : List FVal) (hI : allFin I) :
    colCumsum (shiftFillna0 L I) = shiftFillna0 L (colCumsum I) := by
  unfold colCumsum shiftFillna0
  simp only [List.map_take, List.map_append, List.map_replicate]
  have hcell : fillnaCell FVal.nan = FVal.fin 0 := by simp [fillnaCell]
  rw [hcell, map_fillnaCell_of_allFin I hI,
    map_fillnaCell_of_allFin (cumsumAux (.fin 0) I)
      (allFin_cumsumAux _ _ ⟨0, rfl⟩ hI),
    cumsumAux_length, cumsumAux_take, cumsumAux_zero_prefix]

theorem colClip0_of_nonneg (xs : List FVal)
    (h : ∀ x ∈ xs, ∃ q, x = FVal.fin q ∧ 0 ≤ q) :
    colClip0 xs = xs := by
  induction xs with
  | nil => rfl
  | cons x rest ih =>
    rcases h x (by simp) with ⟨q, rfl, hq⟩
    have hrest : ∀ y ∈ rest, ∃ p, y = FVal.fin p ∧ 0 ≤ p :=
      fun y hy => h y (List.mem_cons_of_mem _ hy)
    simp only [colClip0, List.map_cons, clip0Cell, max_eq_right hq]
    rw [← colClip0, ih hrest]

/-- C5 (amended). Deriving with mode=incidence on a finite incident series
I and with mode=cumulative on C = cumsum(I) (same D, N) yields identical
C, S, D and N columns, and identical R columns whenever the unclipped
recovered count C.shift(lag) - D is non-negative everywhere (incidence
mode clips it at 0, cumulative mode does not); but the I column — and with
it A — differs in general: cumulative mode derives I(t) = C(t) - R(t) - D(t),
the active cases accumulated over the lag window, while incidence mode
keeps the per-period incident cases. -/
theorem C5_mode_equivalence_amended (logQ : ℚ → ℚ) (lag : Nat)
    (I D N : List FVal) (hI : allFin I) :
    ∀ frCum frInc : FeFrame,
      featureEngineering logQ lag "cumulative" ⟨colCumsum I, I, D, N, none⟩
          = .ok frCum →
      featureEngineering logQ lag "incidence" ⟨colCumsum I, I, D, N, none⟩
          = .ok frInc →
      frCum.C = frInc.C ∧ frCum.S = frInc.S ∧ frCum.D = frInc.D ∧
      frCum.N = frInc.N ∧
      ((∀ x ∈ colSub (shiftFillna0 lag (colCumsum I)) D,
          ∃ q, x = FVal.fin q ∧ 0 ≤ q) → frCum.R = frInc.R) := by
  intro frCum frInc hcum hinc
  have hc : frCum = finishFeatures logQ
      (calcCompartmentsCumulative lag ⟨colCumsum I, I, D, N, none⟩) := by
    simpa [featureEngineering] using hcum.symm
  have hi : frInc = finishFeatures logQ
      (calcCompartmentsIncidence lag ⟨colCumsum I, I, D, N, none⟩) := by
    simpa [featureEngineering] using hinc.symm
  subst hc; subst hi
  refine ⟨rfl, rfl, rfl, rfl, ?_⟩
  intro hpos
  show finalFill (calcCompartmentsCumulative lag
      ⟨colCumsum I, I, D, N, none⟩).R = finalFill (calcCompartmentsIncidence
      lag ⟨colCumsum I, I, D, N, none⟩).R
  have hR : (calcCompartmentsIncidence lag
      ⟨colCumsum I, I, D, N, none⟩).R = (calcCompartmentsCumulative lag
      ⟨colCumsum I, I, D, N, none⟩).R := by
    show colClip0 (colSub (colCumsum (shiftFillna0 lag I)) D)
        = colSub (shiftFillna0 lag (colCumsum I)) D
    rw [cumsum_shiftFillna0_comm lag I hI]
    exact colClip0_of_nonneg _ hpos
  rw [hR]

def c5I : List FVal := [.fin 1, .fin 1]

def c5D : List FVal := [.fin 0, .fin 0]

def c5N : List FVal := [.fin 10, .fin 10]

/-- The shared input of the two modes: incident cases [1, 1], their
cumulative sum as C, no deaths, population 10. -/
def c5Raw : RawData := ⟨colCumsum c5I, c5I, c5D, c5N, none⟩

/-- Witness for C5 (amended): on the concrete two-row series the C and S
columns of the two modes coincide. -/
theorem C5_mode_equivalence_amended_witness :
    (finishFeatures (fun q => q) (calcCompartmentsCumulative 1 c5Raw)).C
        = (finishFeatures (fun q => q) (calcCompartmentsIncidence 1 c5Raw)).C ∧
    (finishFeatures (fun q => q) (calcCompartmentsCumulative 1 c5Raw)).S
        = (finishFeatures (fun q => q) (calcCompartmentsIncidence 1 c5Raw)).S :=
  have happ := C5_mode_equivalence_amended (fun q => q) 1 c5I c5D c5N
    (by
      intro x hx
      simp only [c5I, List.mem_cons, List.not_mem_nil, or_false] at hx
      rcases hx with rfl | rfl
      · exact ⟨1, rfl⟩
      · exact ⟨1, rfl⟩)
    (finishFeatures (fun q => q) (calcCompartmentsCumulative 1 c5Raw))
    (finishFeatures (fun q => q) (calcCompartmentsIncidence 1 c5Raw))
    rfl rfl
  ⟨happ.1, happ.2.1⟩

/-- Counterexample to C5. With the default 14-day lag, incident cases
[1, 1] (D = 0, N = 10): cumulative mode on C = cumsum(I) = [1, 2] derives
I = C - R - D = [1, 2] (active cases), while incidence mode keeps
I = [1, 1] (incident cases) — the I columns of the two derivations differ,
so they are not identical as tables. -/
theorem C5_counterexample :
    featureEngineering (fun q => q) 14 "cumulative" c5Raw
        = .ok (finishFeatures (fun q => q)
            (calcCompartmentsCumulative 14 c5Raw)) ∧
    featureEngineering (fun q => q) 14 "incidence" c5Raw
        = .ok (finishFeatures (fun q => q)
            (calcCompartmentsIncidence 14 c5Raw)) ∧
    (finishFeatures (fun q => q) (calcCompartmentsCumulative 14 c5Raw)).I
        = [.fin 1, .fin 2] ∧
    (finishFeatures (fun q => q) (calcCompartmentsIncidence 14 c5Raw)).I
        = [.fin 1, .fin 1] ∧
    (finishFeatures (fun q => q) (calcCompartmentsCumulative 14 c5Raw)).I
        ≠ (finishFeatures (fun q => q) (calcCompartmentsIncidence 14 c5Raw)).I := by
  have hcum : (finishFeatures (fun q => q)
      (calcCompartmentsCumulative 14 c5Raw)).I = [.fin 1, .fin 2] := by
    norm_num [finishFeatures, calcCompartmentsCumulative, c5Raw, c5I, c5D,
      c5N, colCumsum, cumsumAux, shiftFillna0, fillnaCell, colSub, colAdd,
      fsub, fadd, fneg, finalFill, colFillna0, colFfill, ffillAux,
      List.zipWith, List.replicate]
    simp [fillnaCell]
  have hinc : (finishFeatures (fun q => q)
      (calcCompartmentsIncidence 14 c5Raw)).I = [.fin 1, .fin 1] := by
    norm_num [finishFeatures, calcCompartmentsIncidence, c5Raw, c5I, c5D,
      c5N, finalFill, colFillna0, colFfill, ffillAux]
    simp [fillnaCell]
  refine ⟨rfl, rfl, hcum, hinc, ?_⟩
  rw [hcum, hinc]
  simp

/-! ### Claim C6: no NaN/Inf in the derived table -/

theorem allFin_noInf {xs : List FVal} (h : allFin xs) : noInf xs := by
  intro x hx
  rcases h x hx with ⟨q, rfl⟩
  exact ⟨by simp, by simp⟩

theorem allFin_noNaN {xs : List FVal} (h : allFin xs) : noNaN xs := by
  intro x hx
  rcases h x hx with ⟨q, rfl⟩
  simp

theorem mem_zipWith {f : FVal → FVal → FVal} {xs ys : List FVal} :
    ∀ z ∈ List.zipWith f xs ys, ∃ x ∈ xs, ∃ y ∈ ys, z = f x y := by
  induction xs generalizing ys with
  | nil => intro z hz; simp at hz
  | cons x rest ih =>
    intro z hz
    cases ys with
    | nil => simp at hz
    | cons y ys =>
      rcases List.mem_cons.1 hz with h1 | h1
      · exact ⟨x, by simp, y, by simp, h1⟩
      · rcases ih z h1 with ⟨a, ha, b, hb, rfl⟩
        exact ⟨a, by simp [ha], b, by simp [hb], rfl⟩

theorem fadd_fin {a b : FVal} (ha : ∃ q, a = .fin q) (hb : ∃ q, b = .fin q) :
    ∃ q, fadd a b = FVal.fin q := by
  rcases ha with ⟨p, rfl⟩; rcases hb with ⟨q, rfl⟩
  exact ⟨p + q, rfl⟩

theorem fsub_fin {a b : FVal} (ha : ∃ q, a = .fin q) (hb : ∃ q, b = .fin q) :
    ∃ q, fsub a b = FVal.fin q := by
  rcases ha with ⟨p, rfl⟩; rcases hb with ⟨q, rfl⟩
  exact ⟨p + -q, rfl⟩

theorem fmul_fin {a b : FVal} (ha : ∃ q, a = .fin q) (hb : ∃ q, b = .fin q) :
    ∃ q, fmul a b = FVal.fin q := by
  rcases ha with ⟨p, rfl⟩; rcases hb with ⟨q, rfl⟩
  exact ⟨p * q, rfl⟩

theorem allFin_colAdd {xs ys : List FVal} (hx : allFin xs) (hy : allFin ys) :
    allFin (colAdd xs ys) := by
  intro z hz
  rcases mem_zipWith z hz with ⟨a, ha, b, hb, rfl⟩
  exact fadd_fin (hx a ha) (hy b hb)

theorem allFin_colSub {xs ys : List FVal} (hx : allFin xs) (hy : allFin ys) :
    allFin (colSub xs ys) := by
  intro z hz
  rcases mem_zipWith z hz with ⟨a, ha, b, hb, rfl⟩
  exact fsub_fin (hx a ha) (hy b hb)

theorem allFin_shiftFillna0 {xs : List FVal} (L : Nat) (h : allFin xs) :
    allFin (shiftFillna0 L xs) := by
  intro z hz
  rcases List.mem_map.1 hz with ⟨y, hy, rfl⟩
  have hy' := List.mem_append.1 (List.mem_of_mem_take hy)
  rcases hy' with h1 | h1
  · have := List.eq_of_mem_replicate h1
    subst this
    exact ⟨0, by simp [fillnaCell]⟩
  · rcases h y h1 with ⟨q, rfl⟩
    exact ⟨q, by simp [fillnaCell]⟩

theorem allFin_colCumsum {xs : List FVal} (h : allFin xs) :
    allFin (colCumsum xs) :=
  allFin_cumsumAux _ _ ⟨0, rfl⟩ h

theorem allFin_colClip0 {xs : List FVal} (h : allFin xs) :
    allFin (colClip0 xs) := by
  intro z hz
  rcases List.mem_map.1 hz with ⟨y, hy, rfl⟩
  rcases h y hy with ⟨q, rfl⟩
  exact ⟨max 0 q, rfl⟩

theorem noInf_diffNeg {xs : List FVal} (h : allFin xs) :
    noInf (diffNeg xs) := by
  intro z hz
  cases xs with
  | nil => simp [diffNeg] at hz
  | cons x rest =>
    simp only [diffNeg, List.mem_append, List.mem_singleton] at hz
    rcases hz with h1 | h1
    · rcases mem_zipWith z h1 with ⟨a, ha, b, hb, rfl⟩
      have hfa : ∃ q, a = FVal.fin q := h a (List.mem_of_mem_drop ha)
      have hfb : ∃ q, b = FVal.fin q := h b hb
      rcases fsub_fin hfa hfb with ⟨q, hq⟩
      rw [hq]
      exact ⟨by simp, by simp⟩
    · subst h1
      exact ⟨by simp, by simp⟩

theorem noInf_colClip0 {xs : List FVal} (h : noInf xs) :
    noInf (colClip0 xs) := by
  intro z hz
  rcases List.mem_map.1 hz with ⟨y, hy, rfl⟩
  rcases h y hy with ⟨h1, h2⟩
  cases y with
  | fin q => exact ⟨by simp [clip0Cell], by simp [clip0Cell]⟩
  | pinf => exact absurd rfl h1
  | ninf => exact absurd rfl h2
  | nan => exact ⟨by simp [clip0Cell], by simp [clip0Cell]⟩

/-- Cells of a rate column after `prepare_for_logit_function`: NaN, or a
finite value clipped into [eps, 1 - eps]. -/
theorem clipEps_cells (xs : List FVal) :
    ∀ x ∈ colClipEps (replaceInfNan xs),
      x = FVal.nan ∨ ∃ q, x = FVal.fin q ∧ logitEps ≤ q ∧ q ≤ 1 - logitEps := by
  intro x hx
  rcases List.mem_map.1 hx with ⟨y, hy, rfl⟩
  rcases List.mem_map.1 hy with ⟨z, _, rfl⟩
  have heps : (0 : ℚ) < logitEps := by norm_num [logitEps]
  have heps2 : logitEps ≤ 1 - logitEps := by norm_num [logitEps]
  cases z with
  | fin q =>
    right
    refine ⟨max logitEps (min (1 - logitEps) q), rfl, le_max_left _ _, ?_⟩
    exact max_le heps2 (min_le_left _ _)
  | pinf => left; rfl
  | ninf => left; rfl
  | nan => left; rfl

theorem noInf_colClipEps (xs : List FVal) : noInf (colClipEps xs) := by
  intro x hx
  rcases List.mem_map.1 hx with ⟨y, _, rfl⟩
  cases y with
  | fin q => exact ⟨by simp [clipCell], by simp [clipCell]⟩
  | pinf => exact ⟨by simp [clipCell], by simp [clipCell]⟩
  | ninf => exact ⟨by simp [clipCell], by simp [clipCell]⟩
  | nan => exact ⟨by simp [clipCell], by simp [clipCell]⟩

/-- The logit of a prepared (Inf-replaced, clipped) rate column is never
infinite: NaN stays NaN, and a clipped finite rate q ∈ [eps, 1 - eps]
yields the finite value logQ(q / (1 - q)). -/
theorem noInf_colLogit_clipEps (logQ : ℚ → ℚ) (xs : List FVal) :
    noInf (colLogit logQ (colClipEps (replaceInfNan xs))) := by
  intro x hx
  rcases List.mem_map.1 hx with ⟨y, hy, rfl⟩
  rcases clipEps_cells xs y hy with h1 | ⟨q, rfl, hq1, hq2⟩
  · subst h1
    exact ⟨by simp [logitCell, fdiv, fsub, fneg, fadd, fvalLog],
      by simp [logitCell, fdiv, fsub, fneg, fadd, fvalLog]⟩
  · have hq0 : 0 < q := lt_of_lt_of_le (by norm_num [logitEps]) hq1
    have h1q : 0 < 1 + -q := by
      have : logitEps ≤ 1 - q := by linarith
      have heps : (0 : ℚ) < logitEps := by norm_num [logitEps]
      linarith
    have hsub : fsub (.fin 1) (.fin q) = FVal.fin (1 + -q) := rfl
    have hdiv : fdiv (.fin q) (.fin (1 + -q)) = FVal.fin (q / (1 + -q)) := by
      simp [fdiv, ne_of_gt h1q]
    have hpos : 0 < q / (1 + -q) := div_pos hq0 h1q
    simp only [logitCell, hsub, hdiv, fvalLog, hpos, if_pos]
    exact ⟨by simp, by simp⟩

theorem noInf_ffillAux {xs : List FVal} (last : FVal)
    (hlast : last ≠ FVal.pinf ∧ last ≠ FVal.ninf) (h : noInf xs) :
    noInf (ffillAux last xs) := by
  induction xs generalizing last with
  | nil => intro x hx; simp [ffillAux] at hx
  | cons x rest ih =>
    have hx := h x (by simp)
    have hrest : noInf rest := fun y hy => h y (List.mem_cons_of_mem _ hy)
    intro z hz
    by_cases hnan : x = FVal.nan
    · simp only [ffillAux, hnan, if_pos rfl] at hz
      rcases List.mem_cons.1 hz with h1 | h1
      · subst h1; exact hlast
      · exact ih last hlast hrest z h1
    · simp only [ffillAux, hnan, if_neg, ite_false] at hz
      rcases List.mem_cons.1 hz with h1 | h1
      · subst h1; exact hx
      · exact ih x hx hrest z h1

theorem noNaN_colFillna0 (xs : List FVal) : noNaN (colFillna0 xs) := by
  intro x hx
  rcases List.mem_map.1 hx with ⟨y, _, rfl⟩
  by_cases hy : y = FVal.nan
  · simp [fillnaCell, hy]
  · simp [fillnaCell, hy]

theorem noInf_colFillna0 {xs : List FVal} (h : noInf xs) :
    noInf (colFillna0 xs) := by
  intro x hx
  rcases List.mem_map.1 hx with ⟨y, hy, rfl⟩
  by_cases hnan : y = FVal.nan
  · subst hnan
    exact ⟨by simp [fillnaCell], by simp [fillnaCell]⟩
  · simpa [fillnaCell, hnan] using h y hy

theorem noNaN_finalFill (xs : List FVal) : noNaN (finalFill xs) :=
  noNaN_colFillna0 _

theorem noInf_finalFill {xs : List FVal} (h : noInf xs) :
    noInf (finalFill xs) :=
  noInf_colFillna0 (noInf_ffillAux _ (by simp) h)

/-- All compartment and difference columns of an intermediate frame are
free of infinities (differences may hold a trailing NaN). -/
def compNoInf (comp : CompFrame) : Prop :=
  noInf comp.C ∧ noInf comp.I ∧ noInf comp.R ∧ noInf comp.S ∧
  noInf comp.A ∧ noInf comp.D ∧ noInf comp.N ∧ noInf comp.dC ∧
  noInf comp.dA ∧ noInf comp.dS ∧ noInf comp.dI ∧ noInf comp.dR ∧
  noInf comp.dD ∧
  (∀ v, comp.V = some v → noInf v) ∧ (∀ v, comp.dV = some v → noInf v)

/-- The property C6 actually guarantees: every output column is NaN-free,
and every column except R0 is also free of infinities. -/
def cleanExceptR0 (fr : FeFrame) : Prop :=
  noNaN fr.C ∧ noInf fr.C ∧ noNaN fr.I ∧ noInf fr.I ∧
  noNaN fr.R ∧ noInf fr.R ∧ noNaN fr.S ∧ noInf fr.S ∧
  noNaN fr.A ∧ noInf fr.A ∧ noNaN fr.D ∧ noInf fr.D ∧
  noNaN fr.N ∧ noInf fr.N ∧
  noNaN fr.dC ∧ noInf fr.dC ∧ noNaN fr.dA ∧ noInf fr.dA ∧
  noNaN fr.dS ∧ noInf fr.dS ∧ noNaN fr.dI ∧ noInf fr.dI ∧
  noNaN fr.dR ∧ noInf fr.dR ∧ noNaN fr.dD ∧ noInf fr.dD ∧
  noNaN fr.alpha ∧ noInf fr.alpha ∧ noNaN fr.beta ∧ noInf fr.beta ∧
  noNaN fr.gamma ∧ noInf fr.gamma ∧
  noNaN fr.R0 ∧
  noNaN fr.logit_alpha ∧ noInf fr.logit_alpha ∧
  noNaN fr.logit_beta ∧ noInf fr.logit_beta ∧
  noNaN fr.logit_gamma ∧ noInf fr.logit_gamma ∧
  (∀ v, fr.V = some v → noNaN v ∧ noInf v) ∧
  (∀ v, fr.dV = some v → noNaN v ∧ noInf v) ∧
  (∀ v, fr.delta = some v → noNaN v ∧ noInf v) ∧
  (∀ v, fr.logit_delta = some v → noNaN v ∧ noInf v)

theorem compNoInf_cumulative (lag : Nat) (raw : RawData)
    (hC : allFin raw.C) (hD : allFin raw.D) (hN : allFin raw.N)
    (hV : ∀ v, raw.V = some v → allFin v) :
    compNoInf (calcCompartmentsCumulative lag raw) := by
  have hR : allFin (colSub (shiftFillna0 lag raw.C) raw.D) :=
    allFin_colSub (allFin_shiftFillna0 lag hC) hD
  have hI : allFin (colSub (colSub raw.C
      (colSub (shiftFillna0 lag raw.C) raw.D)) raw.D) :=
    allFin_colSub (allFin_colSub hC hR) hD
  have hS : allFin (match raw.V with
      | some v => colSub (colSub raw.N raw.C) v
      | none => colSub raw.N raw.C) := by
    cases hv : raw.V with
    | none => exact allFin_colSub hN hC
    | some v => exact allFin_colSub (allFin_colSub hN hC) (hV v hv)
  refine ⟨allFin_noInf hC, allFin_noInf hI, allFin_noInf hR,
    allFin_noInf hS, allFin_noInf (allFin_colAdd hS hI), allFin_noInf hD,
    allFin_noInf hN, noInf_diffNeg hC, noInf_diffNeg (allFin_colAdd hS hI),
    noInf_diffNeg hS, noInf_diffNeg hI, noInf_diffNeg hR, noInf_diffNeg hD,
    ?_, ?_⟩
  · intro v hv
    simp only [calcCompartmentsCumulative] at hv
    exact allFin_noInf (hV v hv)
  · intro v hv
    simp only [calcCompartmentsCumulative, Option.map_eq_some'] at hv
    rcases hv with ⟨w, hw, rfl⟩
    exact noInf_colClip0 (noInf_diffNeg (hV w hw))

theorem compNoInf_incidence (lag : Nat) (raw : RawData)
    (hI : allFin raw.I) (hD : allFin raw.D) (hN : allFin raw.N)
    (hV : ∀ v, raw.V = some v → allFin v) :
    compNoInf (calcCompartmentsIncidence lag raw) := by
  have hC : allFin (colCumsum raw.I) := allFin_colCumsum hI
  have hR : allFin (colClip0 (colSub (colCumsum (shiftFillna0 lag raw.I))
      raw.D)) :=
    allFin_colClip0 (allFin_colSub
      (allFin_colCumsum (allFin_shiftFillna0 lag hI)) hD)
  have hS : allFin (match raw.V with
      | some v => colSub (colSub raw.N (colCumsum raw.I)) v
      | none => colSub raw.N (colCumsum raw.I)) := by
    cases hv : raw.V with
    | none => exact allFin_colSub hN hC
    | some v => exact allFin_colSub (allFin_colSub hN hC) (hV v hv)
  refine ⟨allFin_noInf hC, allFin_noInf hI, allFin_noInf hR,
    allFin_noInf hS, allFin_noInf (allFin_colAdd hS hI), allFin_noInf hD,
    allFin_noInf hN, allFin_noInf hI, noInf_diffNeg (allFin_colAdd hS hI),
    noInf_diffNeg hS, noInf_diffNeg hI, noInf_diffNeg hR, noInf_diffNeg hD,
    ?_, ?_⟩
  · intro v hv
    simp only [calcCompartmentsIncidence] at hv
    exact allFin_noInf (hV v hv)
  · intro v hv
    simp only [calcCompartmentsIncidence, Option.map_eq_some'] at hv
    rcases hv with ⟨w, hw, rfl⟩
    exact noInf_colClip0 (noInf_diffNeg (hV w hw))

theorem finishFeatures_clean (logQ : ℚ → ℚ) (comp : CompFrame)
    (h : compNoInf comp) : cleanExceptR0 (finishFeatures logQ comp) := by
  obtain ⟨hC, hI, hR, hS, hA, hD, hN, hdC, hdA, hdS, hdI, hdR, hdD,
    hV, hdV⟩ := h
  refine ⟨noNaN_finalFill _, noInf_finalFill hC, noNaN_finalFill _,
    noInf_finalFill hI, noNaN_finalFill _, noInf_finalFill hR,
    noNaN_finalFill _, noInf_finalFill hS, noNaN_finalFill _,
    noInf_finalFill hA, noNaN_finalFill _, noInf_finalFill hD,
    noNaN_finalFill _, noInf_finalFill hN, noNaN_finalFill _,
    noInf_finalFill hdC, noNaN_finalFill _, noInf_finalFill hdA,
    noNaN_finalFill _, noInf_finalFill hdS, noNaN_finalFill _,
    noInf_finalFill hdI, noNaN_finalFill _, noInf_finalFill hdR,
    noNaN_finalFill _, noInf_finalFill hdD,
    noNaN_finalFill _, noInf_finalFill (noInf_colClipEps _),
    noNaN_finalFill _, noInf_finalFill (noInf_colClipEps _),
    noNaN_finalFill _, noInf_finalFill (noInf_colClipEps _),
    noNaN_finalFill _,
    noNaN_finalFill _, noInf_finalFill (noInf_colLogit_clipEps logQ _),
    noNaN_finalFill _, noInf_finalFill (noInf_colLogit_clipEps logQ _),
    noNaN_finalFill _, noInf_finalFill (noInf_colLogit_clipEps logQ _),
    ?_, ?_, ?_, ?_⟩
  · intro v hv
    simp only [finishFeatures, Option.map_eq_some'] at hv
    rcases hv with ⟨w, hw, rfl⟩
    exact ⟨noNaN_finalFill _, noInf_finalFill (hV w hw)⟩
  · intro v hv
    simp only [finishFeatures, Option.map_eq_some'] at hv
    rcases hv with ⟨w, hw, rfl⟩
    exact ⟨noNaN_finalFill _, noInf_finalFill (hdV w hw)⟩
  · intro v hv
    simp only [finishFeatures, Option.map_eq_some', Option.map_map] at hv
    rcases hv with ⟨w, hw, rfl⟩
    exact ⟨noNaN_finalFill _, noInf_finalFill (noInf_colClipEps _)⟩
  · intro v hv
    simp only [finishFeatures, Option.map_eq_some', Option.map_map] at hv
    rcases hv with ⟨w, hw, rfl⟩
    exact ⟨noNaN_finalFill _, noInf_finalFill (noInf_colLogit_clipEps logQ _)⟩

/-- C6 (amended). For every finite-valued input observation table, in
either mode, the table returned by feature_engineering contains no NaN in
any column — rates have ±Inf replaced by NaN and are clipped to
(1e-10, 1-1e-10) before the logit transform, and remaining NaN are
forward-filled then zero-filled — and no infinite value in any column
EXCEPT possibly R0: R0 = alpha/(beta+gamma) is computed from the raw,
unclipped rates and is not in the RATIOS list that the ±Inf-to-NaN
replacement covers, so a division by a zero rate sum survives to the
output as ±Inf. -/
theorem C6_no_nan_inf_amended (logQ : ℚ → ℚ) (lag : Nat) (mode : String)
    (raw : RawData) (fr : FeFrame)
    (hok : featureEngineering logQ lag mode raw = .ok fr)
    (hC : allFin raw.C) (hI : allFin raw.I) (hD : allFin raw.D)
    (hN : allFin raw.N) (hV : ∀ v, raw.V = some v → allFin v) :
    cleanExceptR0 fr := by
  have hV' : ∀ v, raw.V.map colFillna0 = some v → allFin v := by
    intro v hv
    rcases Option.map_eq_some'.1 hv with ⟨w, hw, rfl⟩
    rw [show colFillna0 w = w from map_fillnaCell_of_allFin w (hV w hw)]
    exact hV w hw
  by_cases h1 : mode = "cumulative"
  · have hfr : fr = finishFeatures logQ (calcCompartmentsCumulative lag
        { raw with V := raw.V.map colFillna0 }) := by
      rw [featureEngineering, if_pos h1] at hok
      exact (Except.ok.inj hok).symm
    subst hfr
    exact finishFeatures_clean logQ _
      (compNoInf_cumulative lag _ hC hD hN hV')
  · by_cases h2 : mode = "incidence"
    · have hfr : fr = finishFeatures logQ (calcCompartmentsIncidence lag
          { raw with V := raw.V.map colFillna0 }) := by
        rw [featureEngineering, if_neg h1, if_pos h2] at hok
        exact (Except.ok.inj hok).symm
      subst hfr
      exact finishFeatures_clean logQ _
        (compNoInf_incidence lag _ hI hD hN hV')
    · rw [featureEngineering, if_neg h1, if_neg h2] at hok
      exact Except.noConfusion hok

/-- A three-row cumulative observation table C=[1,2,3], D=0, N=10 on which
the recovery and mortality rates are exactly zero away from the last row. -/
def c6Raw : RawData :=
  ⟨[.fin 1, .fin 2, .fin 3], [.fin 1, .fin 2, .fin 3],
    [.fin 0, .fin 0, .fin 0], [.fin 10, .fin 10, .fin 10], none⟩

/-- Witness for C6 (amended): instantiated at the concrete finite table
`c6Raw` in cumulative mode. -/
theorem C6_no_nan_inf_amended_witness :
    cleanExceptR0 (finishFeatures (fun q => q)
      (calcCompartmentsCumulative 14 c6Raw)) :=
  C6_no_nan_inf_amended (fun q => q) 14 "cumulative" c6Raw
    (finishFeatures (fun q => q) (calcCompartmentsCumulative 14 c6Raw))
    rfl
    (by
      intro x hx
      simp only [c6Raw, List.mem_cons, List.not_mem_nil, or_false] at hx
      rcases hx with rfl | rfl | rfl <;> exact ⟨_, rfl⟩)
    (by
      intro x hx
      simp only [c6Raw, List.mem_cons, List.not_mem_nil, or_false] at hx
      rcases hx with rfl | rfl | rfl <;> exact ⟨_, rfl⟩)
    (by
      intro x hx
      simp only [c6Raw, List.mem_cons, List.not_mem_nil, or_false] at hx
      rcases hx with rfl | rfl | rfl <;> exact ⟨_, rfl⟩)
    (by
      intro x hx
      simp only [c6Raw, List.mem_cons, List.not_mem_nil, or_false] at hx
      rcases hx with rfl | rfl | rfl <;> exact ⟨_, rfl⟩)
    (by intro v hv; simp [c6Raw] at hv)

/-- Counterexample to C6. On the finite table C=[1,2,3], D=0, N=10
(cumulative mode, 14-period lag) the derived beta and gamma are 0 while
alpha is positive, so R0 = alpha/(beta+gamma) divides by zero; the ±Inf
replacement only covers the RATIOS columns alpha, beta, gamma, delta, so
the output R0 column is [+Inf, +Inf, +Inf]: the output does contain
infinite values, contradicting the claim. -/
theorem C6_counterexample :
    featureEngineering (fun q => q) 14 "cumulative" c6Raw
        = .ok (finishFeatures (fun q => q)
            (calcCompartmentsCumulative 14 c6Raw)) ∧
    (finishFeatures (fun q => q) (calcCompartmentsCumulative 14 c6Raw)).R0
        = [.pinf, .pinf, .pinf] := by
  constructor
  · rfl
  · norm_num [finishFeatures, calcCompartmentsCumulative, c6Raw,
      colCumsum, cumsumAux, shiftFillna0, fillnaCell, colSub, colAdd,
      colMul, colDiv, fsub, fadd, fneg, fmul, fdiv, diffNeg,
      finalFill, colFillna0, colFfill, ffillAux,
      List.zipWith, List.replicate]
    simp [fillnaCell]

/-! ### Claim C4: the recovery lag applied by the derivation

The lag POLICY module (`epydemics.data.frequency_handlers`, with
`get_recovery_lag`) is absent from the sources at hand — only its tests
and callers are present — and is modelled from the spec below. The lag
APPLICATION, however, is present: both copies of `feature_engineering`
derive R by `C.shift(settings.RECOVERY_LAG).fillna(0) - D`, where
`RECOVERY_LAG` is the integer 14 (config.py line 28), a plain
integer-period shift at whatever reporting frequency the table has, with
no conversion of the 14-day count into periods and no floor/floor+1
interpolation. The spec-side definitions below state the claim's mandated
fractional behaviour for comparison with that source derivation. -/

/-- The integer recovery-lag setting the source derivation shifts by:
config.py line 28, `RECOVERY_LAG: int = 14` ("Default recovery lag in
days"), consumed by features.py as a period count. -/
def recoveryLagSetting : Nat := 14

/-- Modelled from the spec: the reporting frequencies named in section 6
(daily, business-day, weekly, monthly, annual); the frequency-handler
module itself (`epydemics.data.frequency_handlers`) is not among the
sources at hand, only its tests and callers. -/
inductive ReportingFreq where
  | daily
  | businessDay
  | weekly
  | monthly
  | annual
deriving DecidableEq, Repr

/-- Modelled from the spec: calendar days per reporting period of the
absent frequency-handler policy, as pinned by the repository's
frequency-handler tests (14-day lag at 14 daily periods, 2 weekly
periods, 14/30 monthly periods, 14/365 annual periods). -/
def daysPerPeriod : ReportingFreq -> ℚ
  | .daily => 1
  | .businessDay => 1
  | .weekly => 7
  | .monthly => 30
  | .annual => 365

/-- Modelled from the spec (section 4.1): `get_recovery_lag(freq)` of the
absent frequency-handler policy — the fixed 14-calendar-day recovery lag
expressed in (possibly fractional) periods of the reporting frequency. -/
def getRecoveryLag (f : ReportingFreq) : ℚ := 14 / daysPerPeriod f

/-- Integer shift by `k` periods with missing history defaulting to 0. -/
def shiftKQ (k : Nat) (xs : List ℚ) : List ℚ :=
  (List.replicate k 0 ++ xs).take xs.length

/-- The claim's mandated lag application, stated from the spec's words
(section 4.2 step 3) for comparison with the source derivation: the
fractional-lag interpolation with L0 = floor(L) and frac = L - L0,
(1-frac)*shift(L0) + frac*shift(L0+1). The source does NOT implement
this. -/
def fracLagShift (L : ℚ) (xs : List ℚ) : List ℚ :=
  List.zipWith
    (fun a b => (1 - (L - (⌊L⌋ : ℚ))) * a + (L - (⌊L⌋ : ℚ)) * b)
    (shiftKQ (⌊L⌋).toNat xs) (shiftKQ ((⌊L⌋).toNat + 1) xs)

/-- The claim's mandated Recovered series, stated from the spec's words
(section 4.2 step 3) for comparison with the source derivation:
R(t) = (1-frac)*Cshift(t,L0) + frac*Cshift(t,L0+1) - D(t), clipped at 0.
The source does NOT implement this. -/
def recoveredFracLag (L : ℚ) (C D : List ℚ) : List ℚ :=
  List.zipWith (fun r d => max 0 (r - d)) (fracLagShift L C) D

theorem zipWith_fsub_getD (xs ys : List FVal) (t : Nat)
    (hx : t < xs.length) (hy : t < ys.length) :
    (List.zipWith fsub xs ys).getD t FVal.nan
      = fsub (xs.getD t FVal.nan) (ys.getD t FVal.nan) := by
  induction xs generalizing ys t with
  | nil => simp at hx
  | cons x rest ih =>
    cases ys with
    | nil => simp at hy
    | cons y ys2 =>
      cases t with
      | zero => rfl
      | succ u =>
        simp only [List.zipWith_cons_cons, List.getD_cons_succ]
        exact ih ys2 u (by simpa using hx) (by simpa using hy)

theorem getD_append_replicate (L : Nat) (c : FVal) (xs : List FVal)
    (t : Nat) :
    (List.replicate L c ++ xs).getD t FVal.nan
      = if t < L then c else xs.getD (t - L) FVal.nan := by
  induction L generalizing t with
  | zero => simp
  | succ m ih =>
    cases t with
    | zero => simp [List.replicate_succ]
    | succ u =>
      simp only [List.replicate_succ, List.cons_append, List.getD_cons_succ]
      rw [ih u]
      by_cases hu : u < m
      · rw [if_pos hu, if_pos (by omega)]
      · rw [if_neg hu, if_neg (by omega)]
        congr 1
        omega

theorem getD_take_lt (l : List FVal) (n t : Nat) (h : t < n) :
    (l.take n).getD t FVal.nan = l.getD t FVal.nan := by
  induction l generalizing n t with
  | nil => simp
  | cons x rest ih =>
    cases n with
    | zero => omega
    | succ m =>
      cases t with
      | zero => rfl
      | succ u =>
        simp only [List.take_succ_cons, List.getD_cons_succ]
        exact ih m u (by omega)

theorem getD_map_lt (f : FVal -> FVal) (l : List FVal) (t : Nat)
    (h : t < l.length) :
    (l.map f).getD t FVal.nan = f (l.getD t FVal.nan) := by
  induction l generalizing t with
  | nil => simp at h
  | cons x rest ih =>
    cases t with
    | zero => rfl
    | succ u =>
      simp only [List.map_cons, List.getD_cons_succ]
      exact ih u (by simpa using h)

theorem shiftFillna0_length (L : Nat) (xs : List FVal) :
    (shiftFillna0 L xs).length = xs.length := by
  simp [shiftFillna0]

/-- Pointwise semantics of `C.shift(L).fillna(0)` on a finite series: cell
t is 0 for t < L and the cell L periods back otherwise. -/
theorem shiftFillna0_getD (L : Nat) (xs : List FVal) (hall : allFin xs)
    (t : Nat) (ht : t < xs.length) :
    (shiftFillna0 L xs).getD t FVal.nan
      = if t < L then FVal.fin 0 else xs.getD (t - L) FVal.nan := by
  unfold shiftFillna0
  have hlen : t < ((List.replicate L FVal.nan ++ xs).take xs.length).length := by
    simp
    omega
  rw [getD_map_lt fillnaCell _ t hlen, getD_take_lt _ _ _ ht,
    getD_append_replicate]
  by_cases htL : t < L
  · rw [if_pos htL, if_pos htL]
    simp [fillnaCell]
  · rw [if_neg htL, if_neg htL]
    have hmem : xs.getD (t - L) FVal.nan ∈ xs :=
      getD_mem_of_lt xs (t - L) FVal.nan (by omega)
    rcases hall _ hmem with ⟨q, hq⟩
    rw [hq]
    simp [fillnaCell]

def c4C : List FVal := [.fin 100, .fin 300]

def c4D : List FVal := [.fin 0, .fin 0]

/-- A two-row annual-cadence observation table: C = [100, 300], D = 0. -/
def c4Raw : RawData :=
  ⟨c4C, c4C, c4D, [.fin 1000000, .fin 1000000], none⟩

/-- Counterexample to C4. The source derivation shifts C by the integer
setting RECOVERY_LAG = 14 periods regardless of reporting frequency: on
the annual series C = [100, 300], D = 0 it derives R = [0, 0] (the whole
lag window precedes the series), whereas the claimed fractional behaviour
— effective lag 14/365 applied by floor/floor+1 interpolation — mandates
R = [35100/365, 106700/365]. The code's R is not the claimed one: the lag
is rounded to (indeed fixed at) an integer period count. -/
theorem C4_counterexample :
    recoveryLagSetting = 14 ∧
    (calcCompartmentsCumulative recoveryLagSetting c4Raw).R
      = [.fin 0, .fin 0] ∧
    getRecoveryLag .annual = 14 / 365 ∧
    recoveredFracLag (getRecoveryLag .annual) [100, 300] [0, 0]
      = [35100 / 365, 106700 / 365] ∧
    (calcCompartmentsCumulative recoveryLagSetting c4Raw).R
      ≠ (recoveredFracLag (getRecoveryLag .annual) [100, 300] [0, 0]).map
          FVal.fin := by
  have hfloor : (⌊(14 / 365 : ℚ)⌋ : ℤ) = 0 := by
    rw [Int.floor_eq_iff]
    norm_num
  have hlag : getRecoveryLag .annual = 14 / 365 := by
    norm_num [getRecoveryLag, daysPerPeriod]
  have hinterp : recoveredFracLag (getRecoveryLag .annual) [100, 300] [0, 0]
      = [35100 / 365, 106700 / 365] := by
    rw [hlag]
    norm_num [recoveredFracLag, fracLagShift, hfloor, shiftKQ,
      List.replicate, List.zipWith]
  have hcode : (calcCompartmentsCumulative recoveryLagSetting c4Raw).R
      = [.fin 0, .fin 0] := by
    norm_num [calcCompartmentsCumulative, recoveryLagSetting, c4Raw, c4C,
      c4D, colSub, shiftFillna0, fsub, fadd, fneg, List.zipWith,
      List.replicate]
    simp [fillnaCell]
  refine ⟨rfl, hcode, hlag, hinterp, ?_⟩
  rw [hcode, hinterp]
  intro hcontra
  have := List.head_eq_of_cons_eq hcontra
  simp only [FVal.fin.injEq] at this
  norm_num at this

/-- C4 (amended). The Recovered derivation present in the sources applies
the fixed integer setting RECOVERY_LAG = 14 as a plain integer-period
shift — R cell t equals (C.shift(14).fillna(0) - D) at t, that is,
0 - D(t) for t < 14 and C(t-14) - D(t) from t = 14 on — identically at
every reporting frequency (the derivation never consults one) and with no
floor/floor+1 interpolation; at annual cadence the effective lag is 14
periods, not the fractional 14/365 of the claim. -/
theorem C4_integer_lag_amended (lag : Nat) (C D N : List FVal)
    (hC : allFin C) (t : Nat) (htC : t < C.length) (htD : t < D.length) :
    ((calcCompartmentsCumulative lag ⟨C, C, D, N, none⟩).R).getD t FVal.nan
      = fsub (if t < lag then FVal.fin 0 else C.getD (t - lag) FVal.nan)
          (D.getD t FVal.nan) := by
  have hR : (calcCompartmentsCumulative lag ⟨C, C, D, N, none⟩).R
      = colSub (shiftFillna0 lag C) D := rfl
  rw [hR]
  unfold colSub
  rw [zipWith_fsub_getD _ _ t (by rw [shiftFillna0_length]; exact htC) htD,
    shiftFillna0_getD lag C hC t htC]

/-- Witness for C4 (amended): the integer-shift formula instantiated on
the concrete annual table at position 0, lag = RECOVERY_LAG = 14. -/
theorem C4_integer_lag_amended_witness :
    ((calcCompartmentsCumulative recoveryLagSetting c4Raw).R).getD 0 FVal.nan
      = fsub (if 0 < recoveryLagSetting then FVal.fin 0
          else c4C.getD (0 - recoveryLagSetting) FVal.nan)
          (c4D.getD 0 FVal.nan) :=
  C4_integer_lag_amended recoveryLagSetting c4C c4D
    [.fin 1000000, .fin 1000000]
    (by
      intro x hx
      simp only [c4C, List.mem_cons, List.not_mem_nil, or_false] at hx
      rcases hx with rfl | rfl <;> exact ⟨_, rfl⟩)
    0 (by simp [c4C]) (by simp [c4D])
